import Mathlib

/-!
Shallow embedding of the oikonomos accrual/amortization core
(`src/backend/app/services/finance.py`, `src/backend/app/db.py`,
`src/backend/app/models.py`) in Lean 4.

Modelling conventions:
* SQLite rows become Lean structures; tables become lists inside `LedgerState`.
* `uuid4()` identifiers become `Nat`s drawn from a `nextId` counter.
* Every state-changing service function becomes a pure function
  `... → Except PyExc ...`; an `Except.error` result models the Python
  exception propagating out of the `with transaction(conn)` block, which rolls
  the whole unit back — the caller keeps the pre-state.
* `now_utc_rfc3339()` is modelled by an explicit `now : String` argument;
  RFC3339 timestamp re-normalization (`normalize_timestamp`) is modelled as
  `Option.getD now` (timestamp grammar is outside every claim's scope, and the
  code only defaults absent values to now).
* Python `int(...)` string parsing and `date(y, m, 1)` construction, which
  decide period-key validation in `db.parse_period`, are modelled faithfully
  for ASCII inputs (whitespace stripping, optional sign, underscore digit
  grouping, year range 1..9999); Python `//` and `%` on `int` are `Int.fdiv`
  / `Int.fmod`.
-/

namespace Oikonomos

/-- `models.AccountType`. -/
inductive AccountType
  | Asset
  | Liability
deriving DecidableEq, Repr

/-- `models.AssetPurpose`. -/
inductive AssetPurpose
  | Investment
  | Productivity
  | LifeSupport
  | Spiritual
deriving DecidableEq, Repr

/-- `models.AccrualType`. -/
inductive AccrualType
  | Flow
  | Depreciation
  | Adjustment
deriving DecidableEq, Repr

/-- `models.AmortizationStrategy`. -/
inductive AmortizationStrategy
  | Linear
  | Accelerated
deriving DecidableEq, Repr

/-- Status column of `amortization_schedules` (`db.SCHEMA_SQL`). -/
inductive ScheduleStatus
  | Active
  | Completed
  | Cancelled
deriving DecidableEq, Repr

/-- `models.ApiError` (code, message, HTTP status code). -/
structure ApiError where
  code : String
  message : String
  statusCode : Nat
deriving DecidableEq, Repr

/-- A Python exception escaping a service call: either an `ApiError` raised by
the code, or an uncaught `ValueError` (e.g. `date(10000, 1, 1)` in
`parse_period`). -/
inductive PyExc
  | api (e : ApiError)
  | valueError
deriving DecidableEq, Repr

/-- `ApiError(code, message)` with the default status code 400. -/
def invalidInput (message : String) : PyExc :=
  .api ⟨"invalid_input", message, 400⟩

/-- `ApiError("not_found", message, status_code=404)`. -/
def notFound (message : String) : PyExc :=
  .api ⟨"not_found", message, 404⟩

/-! ### Python `int()` on ASCII strings, and `db.parse_period` -/

/-- ASCII whitespace stripped by Python `int()` around a numeral. -/
def isPySpace (c : Char) : Bool :=
  c = ' ' || c = '\t' || c = '\n' || c = '\r' || c = Char.ofNat 11 || c = Char.ofNat 12

/-- Remaining digits of a Python integer literal: single underscores are
allowed between digits, nowhere else. -/
def pyDigitsGo (acc : Nat) : List Char → Option Nat
  | [] => some acc
  | c :: rest =>
      if c = '_' then
        match rest with
        | [] => none
        | c2 :: rest2 =>
          if c2.isDigit then pyDigitsGo (acc * 10 + (c2.toNat - 48)) rest2 else none
      else if c.isDigit then pyDigitsGo (acc * 10 + (c.toNat - 48)) rest else none

/-- A nonempty Python digit run (with underscore grouping). -/
def pyDigits : List Char → Option Nat
  | [] => none
  | c :: rest => if c.isDigit then pyDigitsGo (c.toNat - 48) rest else none

/-- Sign handling of Python `int()` (sign must be adjacent to the digits). -/
def pyIntCore : List Char → Option Int
  | [] => none
  | c :: rest =>
    if c = '+' then (pyDigits rest).map (fun (n : Nat) => (n : Int))
    else if c = '-' then (pyDigits rest).map (fun (n : Nat) => -(n : Int))
    else (pyDigits (c :: rest)).map (fun (n : Nat) => (n : Int))

/-- Python `int(s)` on an ASCII string: strip surrounding whitespace, then the
signed underscore-grouped numeral. `none` models `ValueError`. -/
def pyInt (l : List Char) : Option Int :=
  pyIntCore (((l.dropWhile isPySpace).reverse.dropWhile isPySpace).reverse)

/-- Python `s.strip()` on an ASCII string. -/
def pyStrip (s : String) : String :=
  ⟨((s.data.dropWhile isPySpace).reverse.dropWhile isPySpace).reverse⟩

/-- Python `s.split(sep)` for a one-character separator. -/
def splitOnChar (sep : Char) : List Char → List (List Char)
  | [] => [[]]
  | c :: rest =>
    match splitOnChar sep rest with
    | [] => [[]]
    | g :: gs => if c = sep then [] :: g :: gs else (c :: g) :: gs

/-- Zero-padded two-digit rendering (Python `date.isoformat` month/day). -/
def pad2 (n : Nat) : String :=
  if n < 10 then "0" ++ toString n else toString n

/-- Zero-padded four-digit rendering (Python `date.isoformat` year). -/
def pad4 (n : Nat) : String :=
  if n < 10 then "000" ++ toString n
  else if n < 100 then "00" ++ toString n
  else if n < 1000 then "0" ++ toString n
  else toString n

/-- `f"{date(y, m, 1).isoformat()}T00:00:00Z"`. -/
def monthStartTs (year month : Int) : String :=
  pad4 year.toNat ++ "-" ++ pad2 month.toNat ++ "-01T00:00:00Z"

/-- `db.parse_period`: split on `-`, parse both parts with Python `int()`,
require `date(year, month, 1)` to be constructible (year 1..9999, month
1..12); the next-month computation runs outside the `try`, so
`parse_period("9999-12")` raises an uncaught `ValueError`. Returns
(year, month, period start timestamp, next month start timestamp). -/
def parse_period (period_ym : String) : Except PyExc (Int × Int × String × String) :=
  match splitOnChar '-' period_ym.data with
  | [p0, p1] =>
    match pyInt p0, pyInt p1 with
    | some year, some month =>
      if 1 ≤ year ∧ year ≤ 9999 ∧ 1 ≤ month ∧ month ≤ 12 then
        if month = 12 then
          if year + 1 ≤ 9999 then
            .ok (year, month, monthStartTs year month, monthStartTs (year + 1) 1)
          else
            .error .valueError
        else
          .ok (year, month, monthStartTs year month, monthStartTs year (month + 1))
      else
        .error (invalidInput ("invalid periodYm: " ++ period_ym))
    | _, _ => .error (invalidInput ("invalid periodYm: " ++ period_ym))
  | _ => .error (invalidInput ("invalid periodYm: " ++ period_ym))

/-- `models.months_between`, applied to months truncated to (year, month). -/
def months_between (startYear startMonth targetYear targetMonth : Int) : Int :=
  (targetYear - startYear) * 12 + (targetMonth - startMonth)

/-! ### The allocation algorithm -/

/-- `finance._calculate_depreciation_amount`. Python `//` and `%` on ints are
`Int.fdiv` and `Int.fmod`; the `for i in range(period_index)` accumulation is
the list sum. -/
def calculate_depreciation_amount (strategy : AmortizationStrategy)
    (depreciable_cents total_periods period_index : Int) : Int :=
  if depreciable_cents ≤ 0 ∨ total_periods ≤ 0 ∨ period_index < 0 ∨
      period_index ≥ total_periods then
    0
  else
    match strategy with
    | .Linear =>
      let base := depreciable_cents.fdiv total_periods
      if period_index = total_periods - 1 then
        base + depreciable_cents.fmod total_periods
      else
        base
    | .Accelerated =>
      let weight_sum := (total_periods * (total_periods + 1)).fdiv 2
      if period_index = total_periods - 1 then
        let allocated := ((List.range period_index.toNat).map
          (fun (i : Nat) => (depreciable_cents * (total_periods - (i : Int))).fdiv weight_sum)).sum
        depreciable_cents - allocated
      else
        (depreciable_cents * (total_periods - period_index)).fdiv weight_sum

/-! ### The ledger store -/

/-- A row of `accounts` (`db.SCHEMA_SQL`). -/
structure Account where
  id : Nat
  name : String
  type : AccountType
  purpose : AssetPurpose
  balance : Int
  createdAt : String
  updatedAt : String
deriving DecidableEq, Repr

/-- A row of `transactions`. -/
structure Txn where
  id : Nat
  amount : Int
  fromAccount : Option Nat
  toAccount : Option Nat
  payee : Option Nat
  category : Option Nat
  accrualType : AccrualType
  isAssetPurchase : Bool
  note : Option String
  occurredAt : String
  createdAt : String
deriving DecidableEq, Repr

/-- A row of `amortization_schedules`. The `start_date` TEXT column is stored
here as the (year, month, day) triple that `parse_date_ymd` extracts from it;
`create_asset_purchase` only ever stores strings that parse. -/
structure Schedule where
  id : Nat
  assetAccount : Nat
  strategy : AmortizationStrategy
  totalPeriods : Int
  residual : Int
  startYear : Int
  startMonth : Int
  startDay : Int
  sourceTransaction : Nat
  status : ScheduleStatus
  createdAt : String
deriving DecidableEq, Repr

/-- A row of `amortization_postings`. -/
structure Posting where
  id : Nat
  scheduleId : Nat
  periodYm : String
  amount : Int
  transactionId : Nat
  generatedAt : String
deriving DecidableEq, Repr

/-- A row of `balance_snapshots`. -/
structure Snapshot where
  id : Nat
  accountId : Nat
  actual : Int
  system : Int
  delta : Int
  capturedAt : String
  adjustmentTx : Option Nat
deriving DecidableEq, Repr

/-- The tables of the store touched by the core, plus the fresh-id counter
standing in for `uuid.uuid4()`. -/
structure LedgerState where
  accounts : List Account
  txns : List Txn
  schedules : List Schedule
  postings : List Posting
  snapshots : List Snapshot
  nextId : Nat
deriving DecidableEq, Repr

/-- The freshly initialized database. -/
def emptyState : LedgerState :=
  { accounts := [], txns := [], schedules := [], postings := [], snapshots := [], nextId := 0 }

/-! ### Service inputs (`models.py`) -/

/-- `models.CreateAccountInput`. -/
structure CreateAccountInput where
  name : String
  accountType : AccountType
  purpose : AssetPurpose
  initialBalanceCents : Int
deriving DecidableEq, Repr

/-- `models.CreateTransactionInput`. -/
structure CreateTransactionInput where
  amountCents : Int
  fromAccountId : Option Nat := none
  toAccountId : Option Nat := none
  payeeId : Option Nat := none
  categoryId : Option Nat := none
  accrualType : Option AccrualType := none
  isAssetPurchase : Option Bool := none
  note : Option String := none
  occurredAt : Option String := none
deriving DecidableEq, Repr

/-- A Python `datetime.date`, as produced by `parse_date_ymd`. -/
structure PyDate where
  year : Int
  month : Int
  day : Int
deriving DecidableEq, Repr

/-- `models.CreateAssetPurchaseInput`; `startDate` is carried already parsed
(the service validates it with `parse_date_ymd` before any write). -/
structure CreateAssetPurchaseInput where
  fromAccountId : Nat
  assetAccountId : Nat
  amountCents : Int
  categoryId : Option Nat := none
  payeeId : Option Nat := none
  note : Option String := none
  occurredAt : Option String := none
  strategy : AmortizationStrategy
  totalPeriods : Int
  residualCents : Int
  startDate : PyDate
deriving DecidableEq, Repr

/-- `models.ReconcileInput`. -/
structure ReconcileInput where
  accountId : Nat
  actualBalanceCents : Int
  occurredAt : Option String := none
  note : Option String := none
deriving DecidableEq, Repr

/-! ### The balance invariant enforcer -/

/-- The `UPDATE accounts SET balance_cents = balance_cents + ?, updated_at = ?
WHERE id = ?` row function of `_apply_balance_delta`. -/
def balanceUpdate (now : String) (k : Nat) (δ : Int) (a : Account) : Account :=
  if a.id = k then { a with balance := a.balance + δ, updatedAt := now } else a

/-- `finance._apply_balance_delta`: UPDATE the row (rowcount 0 means
`not_found`), re-read it, and reject a Liability left with a positive
balance. An `Except.error` models the raised `ApiError`, which aborts and
rolls back the caller's enclosing transaction. -/
def apply_balance_delta (now : String) (s : LedgerState) (account_id : Nat) (delta : Int) :
    Except PyExc LedgerState :=
  if (s.accounts.filter (fun a => a.id = account_id)).length = 0 then
    .error (notFound ("account not found: " ++ toString account_id))
  else
    match (s.accounts.map (balanceUpdate now account_id delta)).find?
        (fun a => a.id = account_id) with
    | none => .error (notFound ("account not found: " ++ toString account_id))
    | some row =>
      if row.type = AccountType.Liability ∧ row.balance > 0 then
        .error (invalidInput ("liability account balance cannot be positive: " ++ toString account_id))
      else
        .ok { s with accounts := s.accounts.map (balanceUpdate now account_id delta) }

/-! ### Account and transaction lifecycle -/

/-- `finance.create_account`. -/
def create_account (now : String) (s : LedgerState) (input_data : CreateAccountInput) :
    Except PyExc (LedgerState × Account) :=
  if pyStrip input_data.name = "" then
    .error (invalidInput "account name cannot be empty")
  else if input_data.accountType = AccountType.Liability ∧ input_data.initialBalanceCents > 0 then
    .error (invalidInput "liability initial balance must be <= 0")
  else
    let acc : Account :=
      { id := s.nextId, name := pyStrip input_data.name,
        type := input_data.accountType, purpose := input_data.purpose,
        balance := input_data.initialBalanceCents, createdAt := now, updatedAt := now }
    .ok ({ s with accounts := s.accounts ++ [acc], nextId := s.nextId + 1 }, acc)

/-- The `if input_data.fromAccountId is not None: _apply_balance_delta(...)`
pattern of `create_transaction`: apply the delta when the account is present,
otherwise leave the state alone. -/
def apply_optional_delta (now : String) (o : Option Nat) (δ : Int) (s : LedgerState) :
    Except PyExc LedgerState :=
  match o with
  | some fid => apply_balance_delta now s fid δ
  | none => .ok s

/-- `finance.create_transaction`: validate, insert the row, then for
non-Depreciation types apply `-amount` to the from-account and `+amount` to
the to-account through the enforcer; any failure rolls the unit back. -/
def create_transaction (now : String) (s : LedgerState) (input_data : CreateTransactionInput) :
    Except PyExc (LedgerState × Txn) :=
  if input_data.amountCents ≤ 0 then
    .error (invalidInput "amountCents must be greater than 0")
  else
    let accrual_type := input_data.accrualType.getD AccrualType.Flow
    if accrual_type ≠ AccrualType.Depreciation ∧ input_data.fromAccountId = none ∧
        input_data.toAccountId = none then
      .error (invalidInput "non-depreciation transaction needs from/to account")
    else
      let txn : Txn :=
        { id := s.nextId, amount := input_data.amountCents,
          fromAccount := input_data.fromAccountId, toAccount := input_data.toAccountId,
          payee := input_data.payeeId, category := input_data.categoryId,
          accrualType := accrual_type,
          isAssetPurchase := input_data.isAssetPurchase.getD false,
          note := input_data.note, occurredAt := input_data.occurredAt.getD now,
          createdAt := now }
      let s1 := { s with txns := s.txns ++ [txn], nextId := s.nextId + 1 }
      if accrual_type ≠ AccrualType.Depreciation then
        match apply_optional_delta now input_data.fromAccountId (-input_data.amountCents) s1 with
        | .error e => .error e
        | .ok s2 =>
          match apply_optional_delta now input_data.toAccountId input_data.amountCents s2 with
          | .error e => .error e
          | .ok s3 => .ok (s3, txn)
      else
        .ok (s1, txn)

/-- `finance.create_asset_purchase`: validate, insert the flagged Flow
transaction, debit the funding account, credit the asset account, and insert
the Active schedule — one atomic unit. -/
def create_asset_purchase (now : String) (s : LedgerState) (input_data : CreateAssetPurchaseInput) :
    Except PyExc (LedgerState × Txn × Schedule) :=
  if input_data.amountCents ≤ 0 then
    .error (invalidInput "amountCents must be greater than 0")
  else if input_data.totalPeriods ≤ 0 then
    .error (invalidInput "totalPeriods must be greater than 0")
  else if input_data.residualCents < 0 ∨ input_data.residualCents > input_data.amountCents then
    .error (invalidInput "residualCents must be between 0 and amountCents")
  else
    let txn : Txn :=
      { id := s.nextId, amount := input_data.amountCents,
        fromAccount := some input_data.fromAccountId,
        toAccount := some input_data.assetAccountId,
        payee := input_data.payeeId, category := input_data.categoryId,
        accrualType := AccrualType.Flow, isAssetPurchase := true,
        note := input_data.note, occurredAt := input_data.occurredAt.getD now,
        createdAt := now }
    let sched : Schedule :=
      { id := s.nextId + 1,
        assetAccount := input_data.assetAccountId, strategy := input_data.strategy,
        totalPeriods := input_data.totalPeriods, residual := input_data.residualCents,
        startYear := input_data.startDate.year, startMonth := input_data.startDate.month,
        startDay := input_data.startDate.day, sourceTransaction := s.nextId,
        status := ScheduleStatus.Active, createdAt := now }
    let s1 := { s with txns := s.txns ++ [txn], nextId := s.nextId + 2 }
    match apply_balance_delta now s1 input_data.fromAccountId (-input_data.amountCents) with
    | .error e => .error e
    | .ok s2 =>
      match apply_balance_delta now s2 input_data.assetAccountId input_data.amountCents with
      | .error e => .error e
      | .ok s3 => .ok ({ s3 with schedules := s3.schedules ++ [sched] }, txn, sched)

/-! ### Reconciliation -/

/-- `finance.reconcile_account`: read the system balance, and in one atomic
unit insert the Adjustment transaction plus balance delta when the delta is
nonzero, then always insert the snapshot. Returns the delta and the id of the
adjustment transaction, if any. -/
def reconcile_account (now : String) (s : LedgerState) (input_data : ReconcileInput) :
    Except PyExc (LedgerState × Int × Option Nat) :=
  match s.accounts.find? (fun a => a.id = input_data.accountId) with
  | none => .error (notFound "account not found")
  | some row =>
    let system_balance := row.balance
    let delta := input_data.actualBalanceCents - system_balance
    let adjusted : Except PyExc (LedgerState × Option Nat) :=
      if delta ≠ 0 then
        let adjustment_id := s.nextId
        let adjTxn : Txn :=
          { id := adjustment_id, amount := |delta|,
            fromAccount := if delta < 0 then some input_data.accountId else none,
            toAccount := if delta > 0 then some input_data.accountId else none,
            payee := none, category := none,
            accrualType := AccrualType.Adjustment, isAssetPurchase := false,
            note := some (input_data.note.getD "Auto adjustment from reconciliation"),
            occurredAt := input_data.occurredAt.getD now, createdAt := now }
        let s1 := { s with txns := s.txns ++ [adjTxn], nextId := s.nextId + 1 }
        (apply_balance_delta now s1 input_data.accountId delta).map
          (fun s2 => (s2, some adjustment_id))
      else
        .ok (s, none)
    match adjusted with
    | .error e => .error e
    | .ok (s1, adjustment_id) =>
      let snap : Snapshot :=
        { id := s1.nextId, accountId := input_data.accountId,
          actual := input_data.actualBalanceCents, system := system_balance,
          delta := delta, capturedAt := now, adjustmentTx := adjustment_id }
      .ok ({ s1 with snapshots := s1.snapshots ++ [snap], nextId := s1.nextId + 1 },
        delta, adjustment_id)

/-! ### Lazy materialization of depreciation -/

/-- The `fetchall` of `ensure_depreciation_for_period`: Active schedules
joined with their source transaction's amount (an inner join: schedules whose
source transaction is missing produce no row). -/
def active_rows (s : LedgerState) : List (Schedule × Int) :=
  s.schedules.filterMap (fun sch =>
    if sch.status = ScheduleStatus.Active then
      (s.txns.find? (fun t => t.id = sch.sourceTransaction)).map (fun t => (sch, t.amount))
    else none)

/-- One iteration of the loop body of `ensure_depreciation_for_period`:
skip when the period is out of range, already posted, or allocates a
non-positive amount; otherwise insert the Depreciation transaction and the
posting, and complete the schedule when this was its final period. -/
def dep_step (now period_ym : String) (periodYear periodMonth : Int)
    (period_start_ts : String) (st : LedgerState) (row : Schedule × Int) : LedgerState :=
  let sch := row.1
  let purchase_amount := row.2
  let period_index := months_between sch.startYear sch.startMonth periodYear periodMonth
  if period_index < 0 ∨ period_index ≥ sch.totalPeriods then st
  else if st.postings.any (fun q => q.scheduleId = sch.id ∧ q.periodYm = period_ym) then st
  else
    let amount := calculate_depreciation_amount sch.strategy
      (purchase_amount - sch.residual) sch.totalPeriods period_index
    if amount ≤ 0 then st
    else
      let depreciation_tx_id := st.nextId
      let depTxn : Txn :=
        { id := depreciation_tx_id, amount := amount,
          fromAccount := none, toAccount := none, payee := none, category := none,
          accrualType := AccrualType.Depreciation, isAssetPurchase := false,
          note := some ("Depreciation for " ++ period_ym),
          occurredAt := period_start_ts, createdAt := now }
      let posting : Posting :=
        { id := st.nextId + 1, scheduleId := sch.id,
          periodYm := period_ym, amount := amount,
          transactionId := depreciation_tx_id, generatedAt := now }
      let st1 : LedgerState :=
        { st with
          txns := st.txns ++ [depTxn]
          postings := st.postings ++ [posting]
          nextId := st.nextId + 2 }
      if period_index = sch.totalPeriods - 1 then
        { st1 with schedules := st1.schedules.map (fun t =>
            if t.id = sch.id then { t with status := ScheduleStatus.Completed } else t) }
      else
        st1

/-- `finance.ensure_depreciation_for_period`: parse the period key, snapshot
the Active schedules, then run the loop body over them against the evolving
state. -/
def ensure_depreciation_for_period (now : String) (s : LedgerState) (period_ym : String) :
    Except PyExc LedgerState :=
  match parse_period period_ym with
  | .error e => .error e
  | .ok (periodYear, periodMonth, period_start_ts, _) =>
    .ok ((active_rows s).foldl (dep_step now period_ym periodYear periodMonth period_start_ts) s)

/-! ### Reachable states -/

/-- States reachable from the freshly initialized database through successful
runs of the core operations (failed runs roll back and leave the state as it
was). -/
inductive Reachable : LedgerState → Prop
  | empty : Reachable emptyState
  | createAccount {s s' : LedgerState} {acc : Account} (now : String)
      (inp : CreateAccountInput) :
      Reachable s → create_account now s inp = .ok (s', acc) → Reachable s'
  | createTransaction {s s' : LedgerState} {t : Txn} (now : String)
      (inp : CreateTransactionInput) :
      Reachable s → create_transaction now s inp = .ok (s', t) → Reachable s'
  | createAssetPurchase {s s' : LedgerState} {t : Txn} {sch : Schedule} (now : String)
      (inp : CreateAssetPurchaseInput) :
      Reachable s → create_asset_purchase now s inp = .ok (s', t, sch) → Reachable s'
  | reconcile {s s' : LedgerState} {d : Int} {adj : Option Nat} (now : String)
      (inp : ReconcileInput) :
      Reachable s → reconcile_account now s inp = .ok (s', d, adj) → Reachable s'
  | ensureDepreciation {s s' : LedgerState} (now period_ym : String) :
      Reachable s → ensure_depreciation_for_period now s period_ym = .ok s' → Reachable s'

/-! ### Derived quantities and invariants stated over the store -/

/-- The total amount allocated by `_calculate_depreciation_amount` over all
period indices `0 .. totalPeriods - 1`. -/
def total_depreciation (strategy : AmortizationStrategy) (d n : Int) : Int :=
  ((List.range n.toNat).map
    (fun (i : Nat) => calculate_depreciation_amount strategy d n (i : Int))).sum

/-- The documented Liability invariant: `type = Liability ⇒ balance ≤ 0`
(also a CHECK constraint of the `accounts` table). -/
def LiabOK (s : LedgerState) : Prop :=
  ∀ a ∈ s.accounts, a.type = AccountType.Liability → a.balance ≤ 0

/-- Account ids are pairwise distinct (the `id TEXT PRIMARY KEY` constraint). -/
def AccIdsNodup (s : LedgerState) : Prop :=
  (s.accounts.map (fun a => a.id)).Nodup

/-- Every stored account id is below the fresh-id counter. -/
def AccIdsBound (s : LedgerState) : Prop :=
  ∀ a ∈ s.accounts, a.id < s.nextId

/-- The postings stored for a given (schedule, periodYm) pair. -/
def postingsFor (s : LedgerState) (sid : Nat) (q : String) : List Posting :=
  s.postings.filter (fun r => r.scheduleId = sid ∧ r.periodYm = q)

/-- The UNIQUE(schedule_id, period_ym) constraint of `amortization_postings`. -/
def PostingsUnique (s : LedgerState) : Prop :=
  ∀ sid q, (postingsFor s sid q).length ≤ 1

/-- The `source_transaction_id TEXT NOT NULL REFERENCES transactions(id)`
foreign key of `amortization_schedules` (enforced by SQLite under
`PRAGMA foreign_keys = ON`): every stored schedule's source transaction
exists. -/
def SchedulesSourced (s : LedgerState) : Prop :=
  ∀ sch ∈ s.schedules, ∃ t ∈ s.txns, t.id = sch.sourceTransaction

/-- A row of the scan of `ensure_depreciation_for_period` that the loop body
leaves alone: its period is already posted, out of range, or allocates a
non-positive amount. -/
def HandledRow (p : String) (py pm : Int) (st : LedgerState) (r : Schedule × Int) : Prop :=
  (st.postings.any (fun q => q.scheduleId = r.1.id ∧ q.periodYm = p)) = true ∨
  months_between r.1.startYear r.1.startMonth py pm < 0 ∨
  months_between r.1.startYear r.1.startMonth py pm ≥ r.1.totalPeriods ∨
  calculate_depreciation_amount r.1.strategy (r.2 - r.1.residual) r.1.totalPeriods
    (months_between r.1.startYear r.1.startMonth py pm) ≤ 0

/-- Modelled from the spec's words (not from the code): the YYYY-MM period
shape — exactly four digits, a hyphen, and two digits naming a month 1..12 —
decoded to its (year, month) value; used to compare the spec's claimed
validation against the code's `parse_period`. -/
def specCanonicalYm (s : String) : Option (Nat × Nat) :=
  match s.data with
  | [y1, y2, y3, y4, h, m1, m2] =>
    if y1.isDigit ∧ y2.isDigit ∧ y3.isDigit ∧ y4.isDigit ∧ h = '-' ∧
        m1.isDigit ∧ m2.isDigit then
      if 1 ≤ (m1.toNat - 48) * 10 + (m2.toNat - 48) ∧
          (m1.toNat - 48) * 10 + (m2.toNat - 48) ≤ 12 then
        some ((((y1.toNat - 48) * 10 + (y2.toNat - 48)) * 10 + (y3.toNat - 48)) * 10 +
          (y4.toNat - 48), (m1.toNat - 48) * 10 + (m2.toNat - 48))
      else none
    else none
  | _ => none

/-! ### Concrete stores used in witness instances -/

/-- A one-account ledger used as a concrete instance in witnesses. -/
def cashOnlyState : LedgerState :=
  { accounts := [⟨0, "Cash", AccountType.Asset, AssetPurpose.LifeSupport, 10, "t0", "t0"⟩],
    txns := [], schedules := [], postings := [], snapshots := [], nextId := 1 }

/-- A ledger holding one funded asset purchase: 600 cents moved from Cash to
Equip, with a one-period Linear schedule on the purchase; used as a concrete
instance in witnesses. -/
def purchasedState : LedgerState :=
  { accounts := [⟨0, "Cash", AccountType.Asset, AssetPurpose.LifeSupport, 9400, "t0", "t0"⟩,
                 ⟨1, "Equip", AccountType.Asset, AssetPurpose.Productivity, 600, "t0", "t0"⟩],
    txns := [⟨2, 600, some 0, some 1, none, none, AccrualType.Flow, true, none, "t2", "t2"⟩],
    schedules := [⟨3, 1, AmortizationStrategy.Linear, 1, 0, 2024, 1, 15, 2,
                   ScheduleStatus.Active, "t2"⟩],
    postings := [], snapshots := [], nextId := 4 }

/-- `purchasedState` after `ensure_depreciation_for_period "t5" _ "2024-01"`:
the single (final) period is posted and the schedule is Completed. -/
def ensuredState : LedgerState :=
  { accounts := [⟨0, "Cash", AccountType.Asset, AssetPurpose.LifeSupport, 9400, "t0", "t0"⟩,
                 ⟨1, "Equip", AccountType.Asset, AssetPurpose.Productivity, 600, "t0", "t0"⟩],
    txns := [⟨2, 600, some 0, some 1, none, none, AccrualType.Flow, true, none, "t2", "t2"⟩,
             ⟨4, 600, none, none, none, none, AccrualType.Depreciation, false,
              some "Depreciation for 2024-01", "2024-01-01T00:00:00Z", "t5"⟩],
    schedules := [⟨3, 1, AmortizationStrategy.Linear, 1, 0, 2024, 1, 15, 2,
                   ScheduleStatus.Completed, "t2"⟩],
    postings := [⟨5, 3, "2024-01", 600, 4, "t5"⟩], snapshots := [], nextId := 6 }

/-- A ledger holding one Liability account with balance −100, reachable from
the empty ledger by one `create_account` run. -/
def loanOnlyState : LedgerState :=
  { accounts := [⟨0, "Loan", AccountType.Liability, AssetPurpose.Investment,
      -100, "t0", "t0"⟩],
    txns := [], schedules := [], postings := [], snapshots := [], nextId := 1 }

/-! ## Helper lemmas -/

lemma sum_map_range_congr (k : Nat) (f g : Nat → Int) (h : ∀ i, i < k → f i = g i) :
    ((List.range k).map f).sum = ((List.range k).map g).sum := by
  induction k with
  | zero => rfl
  | succ k ih =>
    rw [List.range_succ]
    simp only [List.map_append, List.sum_append, List.map_cons, List.map_nil,
      List.sum_cons, List.sum_nil]
    rw [ih (fun i hi => h i (Nat.lt_succ_of_lt hi)), h k (Nat.lt_succ_self k)]

lemma sum_map_range_const (k : Nat) (c : Int) :
    ((List.range k).map (fun _ => c)).sum = (k : Int) * c := by
  induction k with
  | zero => simp
  | succ k ih =>
    rw [List.range_succ]
    simp only [List.map_append, List.sum_append, List.map_cons, List.map_nil,
      List.sum_cons, List.sum_nil]
    rw [ih]
    push_cast
    ring

/-- The guard of `_calculate_depreciation_amount` is inactive on in-range
arguments. -/
lemma calc_dep_guard_false {d n : Int} (i : Nat) (hd : 0 < d) (hn : 0 < n)
    (hi : (i : Int) < n) :
    ¬(d ≤ 0 ∨ n ≤ 0 ∨ (i : Int) < 0 ∨ (i : Int) ≥ n) := by
  push_neg
  exact ⟨hd, hn, Int.ofNat_nonneg i, hi⟩

/-! ## C1: the allocations sum to the depreciable amount -/

/-- C1: for every strategy, every depreciableCents > 0 and totalPeriods > 0,
the per-period depreciation amounts sum to depreciableCents exactly. -/
theorem depreciation_sums_exactly (strategy : AmortizationStrategy) (d n : Int)
    (hd : 0 < d) (hn : 0 < n) : total_depreciation strategy d n = d := by
  obtain ⟨k, hk⟩ : ∃ k, n.toNat = k + 1 := by
    refine ⟨n.toNat - 1, ?_⟩
    omega
  have hkn : ((k : Int) + 1) = n := by
    have := Int.toNat_of_nonneg hn.le
    rw [hk] at this
    push_cast at this
    exact this
  unfold total_depreciation
  rw [hk, List.range_succ]
  simp only [List.map_append, List.sum_append, List.map_cons, List.map_nil,
    List.sum_cons, List.sum_nil]
  cases strategy with
  | Linear =>
    have hlast : calculate_depreciation_amount AmortizationStrategy.Linear d n (k : Int) =
        d.fdiv n + d.fmod n := by
      unfold calculate_depreciation_amount
      rw [if_neg (calc_dep_guard_false k hd hn (by omega))]
      simp only
      rw [if_pos (by omega)]
    have hhead : ∀ i, i < k →
        calculate_depreciation_amount AmortizationStrategy.Linear d n (i : Int) =
          d.fdiv n := by
      intro i hi
      unfold calculate_depreciation_amount
      rw [if_neg (calc_dep_guard_false i hd hn (by omega))]
      simp only
      rw [if_neg (by omega)]
    rw [sum_map_range_congr k _ (fun _ => d.fdiv n) hhead, sum_map_range_const, hlast]
    have hdm := Int.fdiv_add_fmod d n
    linear_combination hdm + d.fdiv n * hkn
  | Accelerated =>
    have hlast : calculate_depreciation_amount AmortizationStrategy.Accelerated d n (k : Int) =
        d - ((List.range k).map
          (fun (i : Nat) => (d * (n - (i : Int))).fdiv ((n * (n + 1)).fdiv 2))).sum := by
      unfold calculate_depreciation_amount
      rw [if_neg (calc_dep_guard_false k hd hn (by omega))]
      simp only
      rw [if_pos (by omega)]
      simp only [Int.toNat_ofNat, Int.toNat_natCast]
    have hhead : ∀ i, i < k →
        calculate_depreciation_amount AmortizationStrategy.Accelerated d n (i : Int) =
          (d * (n - (i : Int))).fdiv ((n * (n + 1)).fdiv 2) := by
      intro i hi
      unfold calculate_depreciation_amount
      rw [if_neg (calc_dep_guard_false i hd hn (by omega))]
      simp only
      rw [if_neg (by omega)]
    rw [sum_map_range_congr k _
      (fun i => (d * (n - (i : Int))).fdiv ((n * (n + 1)).fdiv 2)) hhead, hlast]
    ring

/-- Closed instances discharging the hypotheses of `depreciation_sums_exactly`. -/
theorem depreciation_sums_exactly_witness :
    total_depreciation AmortizationStrategy.Linear 1000 3 = 1000 ∧
    total_depreciation AmortizationStrategy.Accelerated 600 3 = 600 :=
  ⟨depreciation_sums_exactly AmortizationStrategy.Linear 1000 3 (by decide) (by decide),
   depreciation_sums_exactly AmortizationStrategy.Accelerated 600 3 (by decide) (by decide)⟩

/-! ## C4: shape of the allocation function -/

/-- C4: `_calculate_depreciation_amount` returns 0 outside the valid domain;
Linear pays `base = d fdiv n` (floor division, which on the positive in-range
arguments is the truncating integer division the spec describes) in every
period but the last and `base + d fmod n` in the last; Accelerated pays
`(d * (n - i)) fdiv (n*(n+1)/2)` in every period but the last and the
remainder in the last; concretely Linear 1000/3 gives [333, 333, 334] and
Accelerated 600/3 gives [300, 200, 100]. -/
theorem depreciation_amount_formula :
    (∀ (strategy : AmortizationStrategy) (d n i : Int),
      d ≤ 0 ∨ n ≤ 0 ∨ i < 0 ∨ i ≥ n →
      calculate_depreciation_amount strategy d n i = 0) ∧
    (∀ d n i : Int, 0 < d → 0 < n → 0 ≤ i → i < n - 1 →
      calculate_depreciation_amount AmortizationStrategy.Linear d n i = d.fdiv n) ∧
    (∀ d n : Int, 0 < d → 0 < n →
      calculate_depreciation_amount AmortizationStrategy.Linear d n (n - 1) =
        d.fdiv n + d.fmod n) ∧
    (∀ d n i : Int, 0 < d → 0 < n → 0 ≤ i → i < n - 1 →
      calculate_depreciation_amount AmortizationStrategy.Accelerated d n i =
        (d * (n - i)).fdiv ((n * (n + 1)).fdiv 2)) ∧
    (∀ d n : Int, 0 < d → 0 < n →
      calculate_depreciation_amount AmortizationStrategy.Accelerated d n (n - 1) =
        d - ((List.range (n - 1).toNat).map
          (fun (i : Nat) => (d * (n - (i : Int))).fdiv ((n * (n + 1)).fdiv 2))).sum) ∧
    ([0, 1, 2].map (calculate_depreciation_amount AmortizationStrategy.Linear 1000 3) =
      [333, 333, 334]) ∧
    ([0, 1, 2].map (calculate_depreciation_amount AmortizationStrategy.Accelerated 600 3) =
      [300, 200, 100]) := by
  refine ⟨?_, ?_, ?_, ?_, ?_, by decide, by decide⟩
  · intro strategy d n i h
    unfold calculate_depreciation_amount
    rw [if_pos h]
  · intro d n i hd hn hi0 hi
    unfold calculate_depreciation_amount
    rw [if_neg (by push_neg; exact ⟨hd, hn, hi0, by omega⟩)]
    simp only
    rw [if_neg (by omega)]
  · intro d n hd hn
    unfold calculate_depreciation_amount
    rw [if_neg (by push_neg; refine ⟨hd, hn, by omega, by omega⟩)]
    simp only
    rw [if_pos trivial]
  · intro d n i hd hn hi0 hi
    unfold calculate_depreciation_amount
    rw [if_neg (by push_neg; exact ⟨hd, hn, hi0, by omega⟩)]
    simp only
    rw [if_neg (by omega)]
  · intro d n hd hn
    unfold calculate_depreciation_amount
    rw [if_neg (by push_neg; refine ⟨hd, hn, by omega, by omega⟩)]
    simp only
    rw [if_pos trivial]

/-- Closed instances discharging the hypotheses of
`depreciation_amount_formula`. -/
theorem depreciation_amount_formula_witness :
    calculate_depreciation_amount AmortizationStrategy.Linear 0 3 1 = 0 ∧
    calculate_depreciation_amount AmortizationStrategy.Linear 1000 3 0 = Int.fdiv 1000 3 ∧
    calculate_depreciation_amount AmortizationStrategy.Linear 1000 3 (3 - 1) =
      Int.fdiv 1000 3 + Int.fmod 1000 3 :=
  ⟨depreciation_amount_formula.1 AmortizationStrategy.Linear 0 3 1 (Or.inl (by decide)),
   depreciation_amount_formula.2.1 1000 3 0 (by decide) (by decide) (by decide) (by decide),
   depreciation_amount_formula.2.2.1 1000 3 (by decide) (by decide)⟩

/-! ## C10: ensure_depreciation_for_period never touches accounts -/

lemma dep_step_accounts (now p : String) (py pm : Int) (ts : String)
    (st : LedgerState) (r : Schedule × Int) :
    (dep_step now p py pm ts st r).accounts = st.accounts := by
  unfold dep_step
  dsimp only
  split
  · rfl
  · split
    · rfl
    · split
      · rfl
      · split <;> rfl

lemma foldl_dep_step_accounts (now p : String) (py pm : Int) (ts : String)
    (rows : List (Schedule × Int)) (st : LedgerState) :
    ((rows.foldl (dep_step now p py pm ts) st).accounts = st.accounts) := by
  induction rows generalizing st with
  | nil => rfl
  | cons r rest ih =>
    rw [List.foldl_cons, ih]
    exact dep_step_accounts now p py pm ts st r

/-- C10: a successful `ensure_depreciation_for_period` leaves the `accounts`
table exactly as it was: the Depreciation transactions it inserts reference
no account and it never calls `_apply_balance_delta`. -/
theorem ensure_depreciation_preserves_accounts (now : String) (s : LedgerState)
    (p : String) (s' : LedgerState)
    (h : ensure_depreciation_for_period now s p = .ok s') :
    s'.accounts = s.accounts := by
  unfold ensure_depreciation_for_period at h
  cases hp : parse_period p with
  | error e => rw [hp] at h; exact absurd h (by simp)
  | ok v =>
    obtain ⟨py, pm, ts, nx⟩ := v
    rw [hp] at h
    simp only [Except.ok.injEq] at h
    rw [← h]
    exact foldl_dep_step_accounts now p py pm ts (active_rows s) s

/-- Closed instance discharging the hypothesis of
`ensure_depreciation_preserves_accounts`. -/
theorem ensure_depreciation_preserves_accounts_witness :
    emptyState.accounts = emptyState.accounts :=
  ensure_depreciation_preserves_accounts "t0" emptyState "2024-01" emptyState rfl

/-! ## The balance enforcer and C3 -/

lemma find?_map_balanceUpdate (l : List Account) (now : String) (k : Nat) (δ : Int) :
    (l.map (balanceUpdate now k δ)).find? (fun a => a.id = k) =
      (l.find? (fun a => a.id = k)).map (balanceUpdate now k δ) := by
  induction l with
  | nil => rfl
  | cons a t ih =>
    by_cases h : a.id = k
    · rw [List.map_cons,
        List.find?_cons_of_pos _ (by simp [balanceUpdate, h]),
        List.find?_cons_of_pos _ (by simp [h])]
      rfl
    · rw [List.map_cons,
        List.find?_cons_of_neg _ (by simp [balanceUpdate, h]),
        List.find?_cons_of_neg _ (by simp [h]), ih]

lemma filter_length_ne_zero_of_find? (l : List Account) (k : Nat) (acc : Account)
    (h : l.find? (fun a => a.id = k) = some acc) :
    ¬(l.filter (fun a => a.id = k)).length = 0 := by
  intro h0
  rw [List.length_eq_zero] at h0
  have hmem := List.mem_of_find?_eq_some h
  have hp := List.find?_some h
  have := List.filter_eq_nil_iff.mp h0 acc hmem
  exact this hp

/-- Frame of a successful `_apply_balance_delta`: only `accounts` changes,
and it changes by the row update. -/
lemma apply_balance_delta_ok (now : String) (s : LedgerState) (k : Nat) (δ : Int)
    (s' : LedgerState) (h : apply_balance_delta now s k δ = .ok s') :
    s' = { s with accounts := s.accounts.map (balanceUpdate now k δ) } := by
  unfold apply_balance_delta at h
  split at h
  · exact absurd h (by simp)
  · split at h
    · exact absurd h (by simp)
    · split at h
      · exact absurd h (by simp)
      · simpa using h.symm

/-- A successful `_apply_balance_delta` certifies that the re-read row is not
a positive-balance Liability. -/
lemma apply_balance_delta_ok_guard (now : String) (s : LedgerState) (k : Nat) (δ : Int)
    (s' : LedgerState) (acc : Account) (h : apply_balance_delta now s k δ = .ok s')
    (hf : s.accounts.find? (fun a => a.id = k) = some acc) :
    ¬(acc.type = AccountType.Liability ∧ 0 < acc.balance + δ) := by
  intro hcontra
  unfold apply_balance_delta at h
  rw [find?_map_balanceUpdate, hf] at h
  rw [if_neg (filter_length_ne_zero_of_find? s.accounts k acc hf)] at h
  simp only [Option.map_some'] at h
  rw [if_pos (by
    refine ⟨?_, ?_⟩
    · show (balanceUpdate now k δ acc).type = AccountType.Liability
      rw [balanceUpdate, if_pos (by
        have := List.find?_some hf
        simpa using this)]
      exact hcontra.1
    · show 0 < (balanceUpdate now k δ acc).balance
      rw [balanceUpdate, if_pos (by
        have := List.find?_some hf
        simpa using this)]
      exact hcontra.2)] at h
  exact absurd h (by simp)

/-- The error raised by `_apply_balance_delta` on a Liability pushed positive. -/
lemma apply_balance_delta_liability_error (now : String) (s : LedgerState) (k : Nat)
    (δ : Int) (acc : Account) (hf : s.accounts.find? (fun a => a.id = k) = some acc)
    (hL : acc.type = AccountType.Liability) (hpos : 0 < acc.balance + δ) :
    apply_balance_delta now s k δ =
      .error (invalidInput ("liability account balance cannot be positive: " ++ toString k)) := by
  have hid : acc.id = k := by
    have := List.find?_some hf
    simpa using this
  unfold apply_balance_delta
  rw [find?_map_balanceUpdate, hf]
  rw [if_neg (filter_length_ne_zero_of_find? s.accounts k acc hf)]
  simp only [Option.map_some']
  rw [if_pos (by
    constructor
    · show (balanceUpdate now k δ acc).type = AccountType.Liability
      rw [balanceUpdate, if_pos hid]
      exact hL
    · show 0 < (balanceUpdate now k δ acc).balance
      rw [balanceUpdate, if_pos hid]
      exact hpos)]

/-- C3: a delta that would leave a Liability account with a strictly positive
balance makes `_apply_balance_delta` raise `invalid_input`, and the operations
that invoke it inside their atomic unit (`create_transaction` crediting such
an account, `reconcile_account` reconciling one to a positive actual balance)
propagate the same error; an `Except.error` result carries no state, which is
the rollback: the caller keeps the pre-state and the account balance is
unchanged. -/
theorem liability_positive_delta_rejected :
    (∀ (now : String) (s : LedgerState) (k : Nat) (δ : Int) (acc : Account),
      s.accounts.find? (fun a => a.id = k) = some acc →
      acc.type = AccountType.Liability → 0 < acc.balance + δ →
      apply_balance_delta now s k δ =
        .error (invalidInput ("liability account balance cannot be positive: " ++ toString k))) ∧
    (∀ (now : String) (s : LedgerState) (inp : CreateTransactionInput)
        (acc : Account) (tid : Nat),
      inp.fromAccountId = none → inp.toAccountId = some tid →
      inp.accrualType.getD AccrualType.Flow ≠ AccrualType.Depreciation →
      0 < inp.amountCents →
      s.accounts.find? (fun a => a.id = tid) = some acc →
      acc.type = AccountType.Liability → 0 < acc.balance + inp.amountCents →
      create_transaction now s inp =
        .error (invalidInput ("liability account balance cannot be positive: " ++ toString tid))) ∧
    (∀ (now : String) (s : LedgerState) (inp : ReconcileInput) (acc : Account),
      s.accounts.find? (fun a => a.id = inp.accountId) = some acc →
      acc.type = AccountType.Liability → 0 < inp.actualBalanceCents →
      inp.actualBalanceCents ≠ acc.balance →
      reconcile_account now s inp =
        .error (invalidInput
          ("liability account balance cannot be positive: " ++ toString inp.accountId))) := by
  refine ⟨fun now s k δ acc hf hL hpos =>
    apply_balance_delta_liability_error now s k δ acc hf hL hpos, ?_, ?_⟩
  · intro now s inp acc tid hfrom hto hacc hamt hf hL hpos
    unfold create_transaction
    rw [if_neg (by omega : ¬inp.amountCents ≤ 0)]
    rw [if_neg (by
      intro hcon
      rw [hto] at hcon
      exact Option.noConfusion hcon.2.2)]
    rw [if_pos hacc, hfrom, hto]
    have herr := apply_balance_delta_liability_error now
      { s with
        txns := s.txns ++
          [{ id := s.nextId, amount := inp.amountCents, fromAccount := none,
             toAccount := some tid, payee := inp.payeeId, category := inp.categoryId,
             accrualType := inp.accrualType.getD AccrualType.Flow,
             isAssetPurchase := inp.isAssetPurchase.getD false, note := inp.note,
             occurredAt := inp.occurredAt.getD now, createdAt := now }]
        nextId := s.nextId + 1 }
      tid inp.amountCents acc hf hL hpos
    simp only [apply_optional_delta, herr]
  · intro now s inp acc hf hL hpos hne
    unfold reconcile_account
    rw [hf]
    dsimp only
    rw [if_pos (by omega : inp.actualBalanceCents - acc.balance ≠ 0)]
    have herr := apply_balance_delta_liability_error now
      { s with
        txns := s.txns ++
          [{ id := s.nextId, amount := |inp.actualBalanceCents - acc.balance|,
             fromAccount := if inp.actualBalanceCents - acc.balance < 0
               then some inp.accountId else none,
             toAccount := if inp.actualBalanceCents - acc.balance > 0
               then some inp.accountId else none,
             payee := none, category := none,
             accrualType := AccrualType.Adjustment, isAssetPurchase := false,
             note := some (inp.note.getD "Auto adjustment from reconciliation"),
             occurredAt := inp.occurredAt.getD now, createdAt := now }]
        nextId := s.nextId + 1 }
      inp.accountId (inp.actualBalanceCents - acc.balance) acc hf hL (by omega)
    simp only [herr]
    rfl

/-- Closed instance discharging the hypotheses of
`liability_positive_delta_rejected` at a one-account Liability ledger. -/
theorem liability_positive_delta_rejected_witness :
    apply_balance_delta "t1"
      { accounts := [⟨1, "Loan", AccountType.Liability, AssetPurpose.Investment,
          -100, "t0", "t0"⟩],
        txns := [], schedules := [], postings := [], snapshots := [], nextId := 2 }
      1 150 =
      .error (invalidInput ("liability account balance cannot be positive: " ++ toString 1)) :=
  liability_positive_delta_rejected.1 "t1"
    { accounts := [⟨1, "Loan", AccountType.Liability, AssetPurpose.Investment,
        -100, "t0", "t0"⟩],
      txns := [], schedules := [], postings := [], snapshots := [], nextId := 2 }
    1 150
    ⟨1, "Loan", AccountType.Liability, AssetPurpose.Investment, -100, "t0", "t0"⟩
    (by decide) rfl (by decide)

/-! ## Invariants of the ledger -/

lemma balanceUpdate_id (now : String) (k : Nat) (δ : Int) (a : Account) :
    (balanceUpdate now k δ a).id = a.id := by
  unfold balanceUpdate
  split <;> rfl

lemma map_balanceUpdate_ids (now : String) (k : Nat) (δ : Int) (l : List Account) :
    ((l.map (balanceUpdate now k δ)).map (fun a => a.id)) = l.map (fun a => a.id) := by
  rw [List.map_map]
  exact List.map_congr_left (fun a _ => balanceUpdate_id now k δ a)

lemma mem_eq_of_nodup_ids (l : List Account) (hnd : (l.map (fun a => a.id)).Nodup)
    (a b : Account) (ha : a ∈ l) (hb : b ∈ l) (hid : a.id = b.id) : a = b := by
  induction l with
  | nil => cases ha
  | cons c t ih =>
    rw [List.map_cons, List.nodup_cons] at hnd
    rcases List.mem_cons.mp ha with rfl | ha' <;>
      rcases List.mem_cons.mp hb with rfl | hb'
    · rfl
    · exact absurd (hid ▸ List.mem_map_of_mem (fun x => x.id) hb') hnd.1
    · exact absurd (hid ▸ List.mem_map_of_mem (fun x => x.id) ha') hnd.1
    · exact ih hnd.2 ha' hb'

/-- A successful `_apply_balance_delta` preserves the Liability invariant
(given distinct account ids, since the post-write re-read sees the row it
just updated). -/
lemma apply_balance_delta_preserves_liabOK (now : String) (s : LedgerState) (k : Nat)
    (δ : Int) (s' : LedgerState) (h : apply_balance_delta now s k δ = .ok s')
    (hnd : AccIdsNodup s) (hok : LiabOK s) : LiabOK s' := by
  have hs' := apply_balance_delta_ok now s k δ s' h
  intro a' ha' hL'
  rw [hs'] at ha'
  simp only at ha'
  obtain ⟨a, ha, rfl⟩ := List.mem_map.mp ha'
  by_cases hid : a.id = k
  · -- the updated row: certified by the post-write check
    obtain ⟨b, hbfind⟩ : ∃ b, s.accounts.find? (fun x => x.id = k) = some b := by
      have : (s.accounts.find? (fun x => x.id = k)).isSome := by
        rw [List.find?_isSome]
        exact ⟨a, ha, by simp [hid]⟩
      exact Option.isSome_iff_exists.mp this
    have hba : b = a := by
      have hbmem := List.mem_of_find?_eq_some hbfind
      have hbid : b.id = k := by simpa using List.find?_some hbfind
      exact mem_eq_of_nodup_ids s.accounts hnd b a hbmem ha (by rw [hbid, hid])
    have hguard := apply_balance_delta_ok_guard now s k δ s' a h (hba ▸ hbfind)
    have hLa : a.type = AccountType.Liability := by
      have : (balanceUpdate now k δ a).type = a.type := by
        unfold balanceUpdate
        split <;> rfl
      rw [← this]
      exact hL'
    have hbal : ¬(0 < a.balance + δ) := fun hp => hguard ⟨hLa, hp⟩
    have : (balanceUpdate now k δ a).balance = a.balance + δ := by
      unfold balanceUpdate
      rw [if_pos hid]
    omega
  · have : balanceUpdate now k δ a = a := by
      unfold balanceUpdate
      rw [if_neg hid]
    rw [this] at hL' ⊢
    exact hok a ha hL'

/-- `_apply_balance_delta` keeps the id column of `accounts` unchanged, and
touches no other table. -/
lemma apply_balance_delta_frame (now : String) (s : LedgerState) (k : Nat)
    (δ : Int) (s' : LedgerState) (h : apply_balance_delta now s k δ = .ok s') :
    (s'.accounts.map (fun a => a.id)) = s.accounts.map (fun a => a.id) ∧
    s'.txns = s.txns ∧ s'.schedules = s.schedules ∧ s'.postings = s.postings ∧
    s'.snapshots = s.snapshots ∧ s'.nextId = s.nextId := by
  have hs' := apply_balance_delta_ok now s k δ s' h
  rw [hs']
  exact ⟨map_balanceUpdate_ids now k δ s.accounts, rfl, rfl, rfl, rfl, rfl⟩

/-! ## Shapes of successful operations -/

/-- A successful `create_account` appends exactly the validated row. -/
lemma create_account_ok (now : String) (s : LedgerState) (inp : CreateAccountInput)
    (s' : LedgerState) (acc : Account) (h : create_account now s inp = .ok (s', acc)) :
    s' = { s with accounts := s.accounts ++ [acc], nextId := s.nextId + 1 } ∧
    acc = { id := s.nextId, name := pyStrip inp.name, type := inp.accountType,
            purpose := inp.purpose, balance := inp.initialBalanceCents,
            createdAt := now, updatedAt := now } ∧
    ¬(inp.accountType = AccountType.Liability ∧ inp.initialBalanceCents > 0) := by
  unfold create_account at h
  split at h
  · exact absurd h (by simp)
  · split at h
    · exact absurd h (by simp)
    · rename_i hneg
      dsimp only at h
      simp only [Except.ok.injEq, Prod.mk.injEq] at h
      obtain ⟨h1, h2⟩ := h
      subst h2
      exact ⟨h1.symm, rfl, hneg⟩

/-- Frame and invariant propagation for `apply_optional_delta`. -/
lemma apply_optional_delta_ok (now : String) (o : Option Nat) (δ : Int) (s s2 : LedgerState)
    (h : apply_optional_delta now o δ s = .ok s2) :
    s2.accounts.map (fun a => a.id) = s.accounts.map (fun a => a.id) ∧
    s2.txns = s.txns ∧ s2.schedules = s.schedules ∧ s2.postings = s.postings ∧
    s2.snapshots = s.snapshots ∧ s2.nextId = s.nextId ∧
    ((AccIdsNodup s ∧ LiabOK s) → LiabOK s2) := by
  unfold apply_optional_delta at h
  cases o with
  | none =>
    simp only [Except.ok.injEq] at h
    subst h
    exact ⟨rfl, rfl, rfl, rfl, rfl, rfl, fun hp => hp.2⟩
  | some fid =>
    dsimp only at h
    obtain ⟨hids, htx, hsch, hpost, hsnap, hnext⟩ :=
      apply_balance_delta_frame now s fid δ s2 h
    exact ⟨hids, htx, hsch, hpost, hsnap, hnext, fun hp =>
      apply_balance_delta_preserves_liabOK now s fid δ s2 h hp.1 hp.2⟩

/-- A successful `create_transaction` appends exactly the one validated
transaction row, leaves schedules/postings/snapshots untouched, keeps the id
column of `accounts`, and preserves the Liability invariant. -/
lemma create_transaction_ok (now : String) (s : LedgerState)
    (inp : CreateTransactionInput) (s' : LedgerState) (t : Txn)
    (h : create_transaction now s inp = .ok (s', t)) :
    t = { id := s.nextId, amount := inp.amountCents, fromAccount := inp.fromAccountId,
          toAccount := inp.toAccountId, payee := inp.payeeId, category := inp.categoryId,
          accrualType := inp.accrualType.getD AccrualType.Flow,
          isAssetPurchase := inp.isAssetPurchase.getD false, note := inp.note,
          occurredAt := inp.occurredAt.getD now, createdAt := now } ∧
    s'.txns = s.txns ++ [t] ∧ s'.schedules = s.schedules ∧ s'.postings = s.postings ∧
    s'.snapshots = s.snapshots ∧ s'.nextId = s.nextId + 1 ∧
    s'.accounts.map (fun a => a.id) = s.accounts.map (fun a => a.id) ∧
    ((AccIdsNodup s ∧ LiabOK s) → LiabOK s') := by
  unfold create_transaction at h
  split at h
  · exact absurd h (by simp)
  · dsimp only at h
    by_cases hval : inp.accrualType.getD AccrualType.Flow ≠ AccrualType.Depreciation ∧
        inp.fromAccountId = none ∧ inp.toAccountId = none
    · rw [if_pos hval] at h
      exact absurd h (by simp)
    · rw [if_neg hval] at h
      by_cases hdep : inp.accrualType.getD AccrualType.Flow ≠ AccrualType.Depreciation
      · rw [if_pos hdep] at h
        -- non-Depreciation: the two enforcer steps run
        split at h
        · exact absurd h (by simp)
        · rename_i s2 heq1
          split at h
          · exact absurd h (by simp)
          · rename_i s3 heq2
            simp only [Except.ok.injEq, Prod.mk.injEq] at h
            obtain ⟨hs3, ht⟩ := h
            obtain ⟨hids1, htx1, hsch1, hpost1, hsnap1, hnext1, hliab1⟩ :=
              apply_optional_delta_ok now inp.fromAccountId (-inp.amountCents) _ s2 heq1
            obtain ⟨hids2, htx2, hsch2, hpost2, hsnap2, hnext2, hliab2⟩ :=
              apply_optional_delta_ok now inp.toAccountId inp.amountCents s2 s3 heq2
            subst hs3
            refine ⟨ht.symm, ?_, ?_, ?_, ?_, ?_, ?_, ?_⟩
            · rw [htx2, htx1, ht]
            · rw [hsch2, hsch1]
            · rw [hpost2, hpost1]
            · rw [hsnap2, hsnap1]
            · rw [hnext2, hnext1]
            · rw [hids2, hids1]
            · intro hp
              refine hliab2 ⟨?_, ?_⟩
              · unfold AccIdsNodup
                rw [hids1]
                exact hp.1
              · exact hliab1 ⟨hp.1, hp.2⟩
      · -- Depreciation: no balance application
        rw [if_neg hdep] at h
        simp only [Except.ok.injEq, Prod.mk.injEq] at h
        obtain ⟨hs1, ht⟩ := h
        subst hs1
        exact ⟨ht.symm, by rw [ht], rfl, rfl, rfl, rfl, rfl, fun hp => hp.2⟩

lemma except_map_ok {α β : Type} {f : α → β} {x : Except PyExc α} {b : β}
    (h : x.map f = .ok b) : ∃ a, x = .ok a ∧ f a = b := by
  cases x with
  | error e => exact absurd h (by simp [Except.map])
  | ok a =>
    refine ⟨a, rfl, ?_⟩
    simpa [Except.map] using h

/-- A successful `create_asset_purchase` appends exactly one flagged Flow
transaction and one Active schedule referencing it, leaves postings and
snapshots untouched, keeps the id column of `accounts`, preserves the
Liability invariant, and certifies the input validations. -/
lemma create_asset_purchase_ok (now : String) (s : LedgerState)
    (inp : CreateAssetPurchaseInput) (s' : LedgerState) (t : Txn) (sch : Schedule)
    (h : create_asset_purchase now s inp = .ok (s', t, sch)) :
    t = { id := s.nextId, amount := inp.amountCents, fromAccount := some inp.fromAccountId,
          toAccount := some inp.assetAccountId, payee := inp.payeeId,
          category := inp.categoryId, accrualType := AccrualType.Flow,
          isAssetPurchase := true, note := inp.note,
          occurredAt := inp.occurredAt.getD now, createdAt := now } ∧
    sch = { id := s.nextId + 1, assetAccount := inp.assetAccountId,
            strategy := inp.strategy, totalPeriods := inp.totalPeriods,
            residual := inp.residualCents, startYear := inp.startDate.year,
            startMonth := inp.startDate.month, startDay := inp.startDate.day,
            sourceTransaction := s.nextId, status := ScheduleStatus.Active,
            createdAt := now } ∧
    s'.txns = s.txns ++ [t] ∧ s'.schedules = s.schedules ++ [sch] ∧
    s'.postings = s.postings ∧ s'.snapshots = s.snapshots ∧ s'.nextId = s.nextId + 2 ∧
    s'.accounts.map (fun a => a.id) = s.accounts.map (fun a => a.id) ∧
    ((AccIdsNodup s ∧ LiabOK s) → LiabOK s') ∧
    0 < inp.amountCents ∧ 0 < inp.totalPeriods ∧
    0 ≤ inp.residualCents ∧ inp.residualCents ≤ inp.amountCents := by
  unfold create_asset_purchase at h
  split at h
  · exact absurd h (by simp)
  · split at h
    · exact absurd h (by simp)
    · split at h
      · exact absurd h (by simp)
      · rename_i hamt htp hres
        dsimp only at h
        split at h
        · exact absurd h (by simp)
        · rename_i s2 heq1
          split at h
          · exact absurd h (by simp)
          · rename_i s3 heq2
            simp only [Except.ok.injEq, Prod.mk.injEq] at h
            obtain ⟨hs', ht, hsch⟩ := h
            obtain ⟨hids1, htx1, hsch1, hpost1, hsnap1, hnext1⟩ :=
              apply_balance_delta_frame now _ inp.fromAccountId (-inp.amountCents) s2 heq1
            obtain ⟨hids2, htx2, hsch2, hpost2, hsnap2, hnext2⟩ :=
              apply_balance_delta_frame now s2 inp.assetAccountId inp.amountCents s3 heq2
            subst hs'
            refine ⟨ht.symm, hsch.symm, ?_, ?_, ?_, ?_, ?_, ?_, ?_, by omega, by omega,
              by omega, by omega⟩
            · show s3.txns = s.txns ++ [t]
              rw [htx2, htx1, ht]
            · show s3.schedules ++ _ = s.schedules ++ [sch]
              rw [hsch2, hsch1, hsch]
            · show s3.postings = s.postings
              rw [hpost2, hpost1]
            · show s3.snapshots = s.snapshots
              rw [hsnap2, hsnap1]
            · show s3.nextId = s.nextId + 2
              rw [hnext2, hnext1]
            · show s3.accounts.map (fun a => a.id) = s.accounts.map (fun a => a.id)
              rw [hids2, hids1]
            · intro hp
              refine apply_balance_delta_preserves_liabOK now s2 inp.assetAccountId
                inp.amountCents s3 heq2 ?_ ?_
              · unfold AccIdsNodup
                rw [hids1]
                exact hp.1
              · exact apply_balance_delta_preserves_liabOK now _ inp.fromAccountId
                  (-inp.amountCents) s2 heq1 hp.1 hp.2

/-- A successful `reconcile_account` appends exactly one snapshot of the
comparison, plus exactly one Adjustment transaction and a checked balance
write when the delta is nonzero; afterwards the account balance equals the
reported actual balance. -/
lemma reconcile_account_ok (now : String) (s : LedgerState) (inp : ReconcileInput)
    (s' : LedgerState) (d : Int) (adj : Option Nat)
    (h : reconcile_account now s inp = .ok (s', d, adj)) :
    ∃ row, s.accounts.find? (fun a => a.id = inp.accountId) = some row ∧
      d = inp.actualBalanceCents - row.balance ∧
      (∃ sid, s'.snapshots = s.snapshots ++
        [{ id := sid, accountId := inp.accountId, actual := inp.actualBalanceCents,
           system := row.balance, delta := d, capturedAt := now, adjustmentTx := adj }]) ∧
      s'.schedules = s.schedules ∧ s'.postings = s.postings ∧
      s.nextId ≤ s'.nextId ∧
      (d = 0 → adj = none ∧ s'.txns = s.txns ∧ s'.accounts = s.accounts) ∧
      (d ≠ 0 → adj = some s.nextId ∧
        s'.txns = s.txns ++
          [{ id := s.nextId, amount := |d|,
             fromAccount := if d < 0 then some inp.accountId else none,
             toAccount := if d > 0 then some inp.accountId else none,
             payee := none, category := none, accrualType := AccrualType.Adjustment,
             isAssetPurchase := false,
             note := some (inp.note.getD "Auto adjustment from reconciliation"),
             occurredAt := inp.occurredAt.getD now, createdAt := now }] ∧
        s'.accounts.map (fun a => a.id) = s.accounts.map (fun a => a.id) ∧
        ((AccIdsNodup s ∧ LiabOK s) → LiabOK s')) ∧
      (∃ acc', s'.accounts.find? (fun a => a.id = inp.accountId) = some acc' ∧
        acc'.balance = inp.actualBalanceCents) := by
  unfold reconcile_account at h
  cases hf : s.accounts.find? (fun a => a.id = inp.accountId) with
  | none =>
    rw [hf] at h
    exact absurd h (by simp)
  | some row =>
    rw [hf] at h
    dsimp only at h
    refine ⟨row, rfl, ?_⟩
    by_cases hd : inp.actualBalanceCents - row.balance ≠ 0
    · rw [if_pos hd] at h
      split at h
      · exact absurd h (by simp)
      · rename_i s1 adjid heq
        obtain ⟨s2, hap, hpr⟩ := except_map_ok heq
        obtain ⟨hs2s1, hadjid⟩ : s2 = s1 ∧ some s.nextId = adjid := by
          simpa using hpr
        subst hs2s1
        subst hadjid
        simp only [Except.ok.injEq, Prod.mk.injEq] at h
        obtain ⟨hs', hd', hadj⟩ := h
        obtain ⟨hids, htx, hsch, hpost, hsnap, hnext⟩ :=
          apply_balance_delta_frame now _ inp.accountId
            (inp.actualBalanceCents - row.balance) s2 hap
        have hrowid : row.id = inp.accountId := by simpa using List.find?_some hf
        subst hs'
        subst hd'
        subst hadj
        refine ⟨rfl, ⟨s2.nextId, ?_⟩, ?_, ?_, ?_, ?_, ?_, ?_⟩
        · show s2.snapshots ++ _ = s.snapshots ++ _
          rw [hsnap]
        · show s2.schedules = s.schedules
          rw [hsch]
        · show s2.postings = s.postings
          rw [hpost]
        · show s.nextId ≤ s2.nextId + 1
          have hnext' : s2.nextId = s.nextId + 1 := hnext
          omega
        · intro h0
          exact absurd h0 (by simpa using hd)
        · intro _
          refine ⟨rfl, ?_, ?_, ?_⟩
          · show s2.txns = s.txns ++ _
            rw [htx]
          · show s2.accounts.map (fun a => a.id) = s.accounts.map (fun a => a.id)
            rw [hids]
          · intro hp
            exact apply_balance_delta_preserves_liabOK now _ inp.accountId
              (inp.actualBalanceCents - row.balance) s2 hap hp.1 hp.2
        · refine ⟨balanceUpdate now inp.accountId (inp.actualBalanceCents - row.balance) row,
            ?_, ?_⟩
          · show s2.accounts.find? (fun a => a.id = inp.accountId) = _
            have hacc2 := apply_balance_delta_ok now _ inp.accountId
              (inp.actualBalanceCents - row.balance) s2 hap
            rw [hacc2]
            show (List.map _ _).find? _ = _
            rw [find?_map_balanceUpdate, hf]
            rfl
          · show (balanceUpdate now inp.accountId (inp.actualBalanceCents - row.balance)
              row).balance = inp.actualBalanceCents
            unfold balanceUpdate
            rw [if_pos hrowid]
            show row.balance + (inp.actualBalanceCents - row.balance) = _
            omega
    · rw [if_neg hd] at h
      dsimp only at h
      simp only [Except.ok.injEq, Prod.mk.injEq] at h
      obtain ⟨hs', hd', hadj⟩ := h
      have hd0 : inp.actualBalanceCents - row.balance = 0 := by
        by_contra hc
        exact hd hc
      subst hs'
      subst hd'
      subst hadj
      refine ⟨rfl, ⟨s.nextId, rfl⟩, rfl, rfl, Nat.le_succ _, ?_, ?_, ?_⟩
      · intro _
        exact ⟨rfl, rfl, rfl⟩
      · intro hne
        exact absurd hd0 hne
      · refine ⟨row, hf, ?_⟩
        omega

/-- `_apply_balance_delta` succeeds whenever the target account exists and the
write would not leave a Liability positive. -/
lemma apply_balance_delta_succeeds (now : String) (s : LedgerState) (k : Nat) (δ : Int)
    (acc : Account) (hf : s.accounts.find? (fun a => a.id = k) = some acc)
    (hsafe : ¬(acc.type = AccountType.Liability ∧ 0 < acc.balance + δ)) :
    apply_balance_delta now s k δ =
      .ok { s with accounts := s.accounts.map (balanceUpdate now k δ) } := by
  have hid : acc.id = k := by simpa using List.find?_some hf
  unfold apply_balance_delta
  rw [if_neg (filter_length_ne_zero_of_find? s.accounts k acc hf)]
  rw [find?_map_balanceUpdate, hf]
  simp only [Option.map_some']
  rw [if_neg (by
    intro hcon
    refine hsafe ⟨?_, ?_⟩
    · have : (balanceUpdate now k δ acc).type = acc.type := by
        unfold balanceUpdate
        split <;> rfl
      rw [← this]
      exact hcon.1
    · have : (balanceUpdate now k δ acc).balance = acc.balance + δ := by
        unfold balanceUpdate
        rw [if_pos hid]
      rw [← this]
      exact hcon.2)]

/-- `reconcile_account` succeeds whenever the account exists and is not a
Liability being reconciled to a positive actual balance. -/
lemma reconcile_account_succeeds (now : String) (s : LedgerState) (inp : ReconcileInput)
    (acc : Account) (hf : s.accounts.find? (fun a => a.id = inp.accountId) = some acc)
    (hsafe : ¬(acc.type = AccountType.Liability ∧ 0 < inp.actualBalanceCents)) :
    ∃ s' adj, reconcile_account now s inp =
      .ok (s', inp.actualBalanceCents - acc.balance, adj) := by
  unfold reconcile_account
  rw [hf]
  dsimp only
  by_cases hd : inp.actualBalanceCents - acc.balance ≠ 0
  · rw [if_pos hd]
    have hap := apply_balance_delta_succeeds now
      { s with
        txns := s.txns ++
          [{ id := s.nextId, amount := |inp.actualBalanceCents - acc.balance|,
             fromAccount := if inp.actualBalanceCents - acc.balance < 0
               then some inp.accountId else none,
             toAccount := if inp.actualBalanceCents - acc.balance > 0
               then some inp.accountId else none,
             payee := none, category := none,
             accrualType := AccrualType.Adjustment, isAssetPurchase := false,
             note := some (inp.note.getD "Auto adjustment from reconciliation"),
             occurredAt := inp.occurredAt.getD now, createdAt := now }]
        nextId := s.nextId + 1 }
      inp.accountId (inp.actualBalanceCents - acc.balance) acc hf
      (by
        intro hcon
        exact hsafe ⟨hcon.1, by omega⟩)
    rw [hap]
    exact ⟨_, some s.nextId, rfl⟩
  · rw [if_neg hd]
    exact ⟨_, none, rfl⟩

/-! ## C5: reconciliation -/

/-- C5 (amended): for every existing account and actual balance — except a
Liability account reconciled to a strictly positive actual balance, where the
enforcer aborts the atomic unit and nothing (snapshot included) is recorded —
`reconcile_account` records exactly one snapshot with systemBalance read from
the account, delta = actual − system, a null adjustment reference exactly
when delta = 0, one Adjustment transaction of amount |delta| with the account
on the debit side when delta < 0 and the credit side when delta > 0, and
leaves the account balance equal to actualBalanceCents. -/
theorem reconcile_snapshot_spec (now : String) (s : LedgerState) (inp : ReconcileInput)
    (acc : Account) (hf : s.accounts.find? (fun a => a.id = inp.accountId) = some acc)
    (hsafe : ¬(acc.type = AccountType.Liability ∧ 0 < inp.actualBalanceCents)) :
    ∃ s' adj, reconcile_account now s inp =
        .ok (s', inp.actualBalanceCents - acc.balance, adj) ∧
      (∃ sid, s'.snapshots = s.snapshots ++
        [{ id := sid, accountId := inp.accountId, actual := inp.actualBalanceCents,
           system := acc.balance, delta := inp.actualBalanceCents - acc.balance,
           capturedAt := now, adjustmentTx := adj }]) ∧
      (inp.actualBalanceCents - acc.balance = 0 → adj = none ∧ s'.txns = s.txns) ∧
      (inp.actualBalanceCents - acc.balance ≠ 0 → adj = some s.nextId ∧
        s'.txns = s.txns ++
          [{ id := s.nextId, amount := |inp.actualBalanceCents - acc.balance|,
             fromAccount := if inp.actualBalanceCents - acc.balance < 0
               then some inp.accountId else none,
             toAccount := if inp.actualBalanceCents - acc.balance > 0
               then some inp.accountId else none,
             payee := none, category := none, accrualType := AccrualType.Adjustment,
             isAssetPurchase := false,
             note := some (inp.note.getD "Auto adjustment from reconciliation"),
             occurredAt := inp.occurredAt.getD now, createdAt := now }]) ∧
      (∃ acc', s'.accounts.find? (fun a => a.id = inp.accountId) = some acc' ∧
        acc'.balance = inp.actualBalanceCents) := by
  obtain ⟨s', adj, hok⟩ := reconcile_account_succeeds now s inp acc hf hsafe
  obtain ⟨row, hrow, hdeq, hsnap, _hsch, _hpost, _hnid, h0, hne, hbal⟩ :=
    reconcile_account_ok now s inp s' _ adj hok
  have hra : row = acc := by
    rw [hf] at hrow
    exact (Option.some.inj hrow).symm
  subst hra
  exact ⟨s', adj, hok, hsnap, fun h => ⟨(h0 h).1, (h0 h).2.1⟩,
    fun h => ⟨(hne h).1, (hne h).2.1⟩, hbal⟩

/-- Closed instance discharging the hypotheses of `reconcile_snapshot_spec`:
reconciling an Asset account holding 4500 against an actual of 5000. -/
theorem reconcile_snapshot_spec_witness :
    ∃ s' adj, reconcile_account "t1"
      { accounts := [⟨0, "Cash", AccountType.Asset, AssetPurpose.LifeSupport,
          4500, "t0", "t0"⟩],
        txns := [], schedules := [], postings := [], snapshots := [], nextId := 1 }
      { accountId := 0, actualBalanceCents := 5000 } =
      .ok (s', 5000 - 4500, adj) := by
  obtain ⟨s', adj, hok, _⟩ := reconcile_snapshot_spec "t1"
    { accounts := [⟨0, "Cash", AccountType.Asset, AssetPurpose.LifeSupport,
        4500, "t0", "t0"⟩],
      txns := [], schedules := [], postings := [], snapshots := [], nextId := 1 }
    { accountId := 0, actualBalanceCents := 5000 }
    ⟨0, "Cash", AccountType.Asset, AssetPurpose.LifeSupport, 4500, "t0", "t0"⟩
    rfl (by simp)
  exact ⟨s', adj, hok⟩

/-- C5 as frozen is false: reconciling a Liability account (balance −100) to
an actual balance of 50 raises `invalid_input` from the enforcer and rolls the
whole unit back, so no BalanceSnapshot is recorded and the call does not
succeed for this (account, actualBalanceCents) pair. -/
theorem reconcile_snapshot_counterexample :
    reconcile_account "t1"
      { accounts := [⟨1, "Loan", AccountType.Liability, AssetPurpose.Investment,
          -100, "t0", "t0"⟩],
        txns := [], schedules := [], postings := [], snapshots := [], nextId := 2 }
      { accountId := 1, actualBalanceCents := 50 } =
      .error (invalidInput "liability account balance cannot be positive: 1") := rfl

/-! ## C7: writers of Depreciation transactions -/

/-- C7 (amended): `create_account`, `create_asset_purchase` and
`reconcile_account` never insert a Depreciation transaction, and
`create_transaction` inserts one only when the caller explicitly passes
accrualType = Depreciation; with that exception,
`ensure_depreciation_for_period` is the sole writer of Depreciation
transactions. -/
theorem depreciation_sole_writer :
    (∀ (now : String) (s : LedgerState) (inp : CreateAccountInput)
        (s' : LedgerState) (acc : Account),
      create_account now s inp = .ok (s', acc) → s'.txns = s.txns) ∧
    (∀ (now : String) (s : LedgerState) (inp : CreateTransactionInput)
        (s' : LedgerState) (t : Txn),
      create_transaction now s inp = .ok (s', t) →
      inp.accrualType.getD AccrualType.Flow ≠ AccrualType.Depreciation →
      ∀ tx ∈ s'.txns, tx.accrualType = AccrualType.Depreciation → tx ∈ s.txns) ∧
    (∀ (now : String) (s : LedgerState) (inp : CreateAssetPurchaseInput)
        (s' : LedgerState) (t : Txn) (sch : Schedule),
      create_asset_purchase now s inp = .ok (s', t, sch) →
      ∀ tx ∈ s'.txns, tx.accrualType = AccrualType.Depreciation → tx ∈ s.txns) ∧
    (∀ (now : String) (s : LedgerState) (inp : ReconcileInput)
        (s' : LedgerState) (d : Int) (adj : Option Nat),
      reconcile_account now s inp = .ok (s', d, adj) →
      ∀ tx ∈ s'.txns, tx.accrualType = AccrualType.Depreciation → tx ∈ s.txns) := by
  refine ⟨?_, ?_, ?_, ?_⟩
  · intro now s inp s' acc h
    rw [(create_account_ok now s inp s' acc h).1]
  · intro now s inp s' t h hdep tx htx hdx
    obtain ⟨ht, htxns, _⟩ := create_transaction_ok now s inp s' t h
    rw [htxns] at htx
    rcases List.mem_append.mp htx with hin | hin
    · exact hin
    · have : tx = t := by simpa using hin
      subst this
      rw [ht] at hdx
      exact absurd hdx hdep
  · intro now s inp s' t sch h tx htx hdx
    obtain ⟨ht, _, htxns, _⟩ := create_asset_purchase_ok now s inp s' t sch h
    rw [htxns] at htx
    rcases List.mem_append.mp htx with hin | hin
    · exact hin
    · have : tx = t := by simpa using hin
      subst this
      rw [ht] at hdx
      exact absurd hdx (by simp)
  · intro now s inp s' d adj h tx htx hdx
    obtain ⟨row, _, _, _, _, _, _, h0, hne, _⟩ := reconcile_account_ok now s inp s' d adj h
    by_cases hd : d = 0
    · rw [(h0 hd).2.1] at htx
      exact htx
    · rw [(hne hd).2.1] at htx
      rcases List.mem_append.mp htx with hin | hin
      · exact hin
      · rw [List.mem_singleton] at hin
        rw [hin] at hdx
        exact absurd hdx (by simp)

/-- Closed instance discharging the hypotheses of `depreciation_sole_writer`
(its first conjunct applied at a concrete successful run). -/
theorem depreciation_sole_writer_witness :
    cashOnlyState.txns = emptyState.txns :=
  depreciation_sole_writer.1 "t0" emptyState
    { name := "Cash", accountType := AccountType.Asset,
      purpose := AssetPurpose.LifeSupport, initialBalanceCents := 10 }
    cashOnlyState
    ⟨0, "Cash", AccountType.Asset, AssetPurpose.LifeSupport, 10, "t0", "t0"⟩
    (by rfl)

/-- C7 as frozen is false: `create_transaction` with an explicit
accrualType = Depreciation succeeds and inserts a Depreciation transaction,
so `ensure_depreciation_for_period` is not the only operation that creates
them. -/
theorem depreciation_sole_writer_counterexample :
    create_transaction "t0" emptyState
        { amountCents := 70, accrualType := some AccrualType.Depreciation } =
      .ok ({ emptyState with
              txns := [{ id := 0, amount := 70, fromAccount := none, toAccount := none,
                         payee := none, category := none,
                         accrualType := AccrualType.Depreciation, isAssetPurchase := false,
                         note := none, occurredAt := "t0", createdAt := "t0" }]
              nextId := 1 },
            { id := 0, amount := 70, fromAccount := none, toAccount := none,
              payee := none, category := none,
              accrualType := AccrualType.Depreciation, isAssetPurchase := false,
              note := none, occurredAt := "t0", createdAt := "t0" }) := rfl

/-! ## C8: period-key validation -/

lemma digit_ne (c : Char) (hc : c.isDigit = true) (d : Char) (hd : d.isDigit = false) :
    ¬c = d := by
  intro h
  subst h
  rw [hc] at hd
  cases hd

lemma digit_not_space (c : Char) (hc : c.isDigit = true) : isPySpace c = false := by
  rcases Bool.eq_false_or_eq_true (isPySpace c) with h | h
  · exfalso
    unfold isPySpace at h
    simp only [Bool.or_eq_true, decide_eq_true_eq] at h
    rcases h with ((((h | h) | h) | h) | h) | h <;> subst h <;>
      exact absurd hc (by decide)
  · exact h

lemma digit_toNat_bounds (c : Char) (hc : c.isDigit = true) :
    48 ≤ c.toNat ∧ c.toNat ≤ 57 := by
  unfold Char.isDigit at hc
  simp only [Bool.and_eq_true, decide_eq_true_eq] at hc
  obtain ⟨h1, h2⟩ := hc
  exact ⟨by exact_mod_cast h1, by exact_mod_cast h2⟩

lemma dropWhile_false (p : Char → Bool) (l : List Char) (h : ∀ c ∈ l, p c = false) :
    l.dropWhile p = l := by
  cases l with
  | nil => rfl
  | cons c rest =>
    have := h c (List.mem_cons_self c rest)
    simp [List.dropWhile, this]

lemma pyInt_no_space (l : List Char) (hl : ∀ c ∈ l, isPySpace c = false) :
    pyInt l = pyIntCore l := by
  unfold pyInt
  rw [dropWhile_false _ _ hl,
    dropWhile_false _ _ (fun c hc => hl c (List.mem_reverse.mp hc)),
    List.reverse_reverse]

lemma pyDigitsGo_all_digits (l : List Char) (h : ∀ c ∈ l, c.isDigit = true) (acc : Nat) :
    pyDigitsGo acc l =
      some (l.foldl (fun n c => n * 10 + (c.toNat - 48)) acc) := by
  induction l generalizing acc with
  | nil => rfl
  | cons c rest ih =>
    have hc := h c (List.mem_cons_self c rest)
    unfold pyDigitsGo
    rw [if_neg (digit_ne c hc '_' (by decide)), if_pos hc,
      ih (fun d hd => h d (List.mem_cons_of_mem c hd)), List.foldl_cons]

lemma pyInt_all_digits (c : Char) (l : List Char)
    (h : ∀ d ∈ (c :: l), d.isDigit = true) :
    pyInt (c :: l) =
      some (((c :: l).foldl (fun n d => n * 10 + (d.toNat - 48)) 0 : Nat) : Int) := by
  have hc := h c (List.mem_cons_self c l)
  rw [pyInt_no_space _ (fun d hd => digit_not_space d (h d hd))]
  show (if c = '+' then _ else if c = '-' then _ else
    (pyDigits (c :: l)).map (fun (n : Nat) => (n : Int))) = _
  rw [if_neg (digit_ne c hc '+' (by decide)), if_neg (digit_ne c hc '-' (by decide))]
  show ((if c.isDigit then pyDigitsGo (c.toNat - 48) l else none)).map
    (fun (n : Nat) => (n : Int)) = _
  rw [if_pos hc, pyDigitsGo_all_digits l (fun d hd => h d (List.mem_cons_of_mem c hd))]
  rw [List.foldl_cons]
  simp

lemma parse_period_two_parts (s : String) (p0 p1 : List Char)
    (hsplit : splitOnChar '-' s.data = [p0, p1]) :
    parse_period s =
      match pyInt p0, pyInt p1 with
      | some year, some month =>
        if 1 ≤ year ∧ year ≤ 9999 ∧ 1 ≤ month ∧ month ≤ 12 then
          if month = 12 then
            if year + 1 ≤ 9999 then
              .ok (year, month, monthStartTs year month, monthStartTs (year + 1) 1)
            else
              .error .valueError
          else
            .ok (year, month, monthStartTs year month, monthStartTs year (month + 1))
        else
          .error (invalidInput ("invalid periodYm: " ++ s))
      | _, _ => .error (invalidInput ("invalid periodYm: " ++ s)) := by
  unfold parse_period
  rw [hsplit]

lemma splitOnChar_cons_ne (sep c : Char) (l : List Char) (hne : ¬c = sep)
    (g : List Char) (gs : List (List Char)) (hrec : splitOnChar sep l = g :: gs) :
    splitOnChar sep (c :: l) = (c :: g) :: gs := by
  show (match splitOnChar sep l with
        | [] => [[]]
        | g :: gs => if c = sep then [] :: g :: gs else (c :: g) :: gs) = _
  rw [hrec]
  exact if_neg hne

lemma splitOnChar_cons_eq (sep : Char) (l : List Char)
    (g : List Char) (gs : List (List Char)) (hrec : splitOnChar sep l = g :: gs) :
    splitOnChar sep (sep :: l) = [] :: g :: gs := by
  show (match splitOnChar sep l with
        | [] => [[]]
        | g :: gs => if sep = sep then [] :: g :: gs else (sep :: g) :: gs) = _
  rw [hrec]
  exact if_pos rfl

/-- C8 as frozen is false: the single-digit month string 2024-5 is not of the
YYYY-MM shape, yet the period-validating core operations accept it
(`parse_period` parses it and `ensure_depreciation_for_period` succeeds). -/
theorem period_key_validation_counterexample :
    specCanonicalYm "2024-5" = none ∧
    parse_period "2024-5" =
      .ok (2024, 5, "2024-05-01T00:00:00Z", "2024-06-01T00:00:00Z") ∧
    ensure_depreciation_for_period "t0" emptyState "2024-5" = .ok emptyState :=
  ⟨rfl, rfl, rfl⟩

/-- C8 (amended): validation is Python `int()` based, not shape based: every
YYYY-MM-shaped string with year ≥ 0001 is accepted — except 9999-12, whose
next-month computation raises an uncaught ValueError — but acceptance is not
limited to that shape (2024-5 is also accepted); a `parse_period` failure
makes the period-taking operation fail with the same error, as
`ensure_depreciation_for_period` shows. -/
theorem period_key_validation :
    (∀ (now : String) (s : LedgerState) (p : String) (e : PyExc),
      parse_period p = .error e →
      ensure_depreciation_for_period now s p = .error e) ∧
    (∀ (s : String) (y m : Nat), specCanonicalYm s = some (y, m) → 1 ≤ y →
      ¬(y = 9999 ∧ m = 12) →
      ∃ ts1 ts2, parse_period s = .ok ((y : Int), (m : Int), ts1, ts2)) ∧
    parse_period "2024-5" =
      .ok (2024, 5, "2024-05-01T00:00:00Z", "2024-06-01T00:00:00Z") ∧
    parse_period "9999-12" = .error PyExc.valueError := by
  refine ⟨?_, ?_, rfl, rfl⟩
  · intro now s p e hp
    unfold ensure_depreciation_for_period
    rw [hp]
  · intro s y m h hy1 hex
    unfold specCanonicalYm at h
    split at h
    · rename_i y1 y2 y3 y4 hc m1 m2 heq
      split at h
      · rename_i hdig
        obtain ⟨hd1, hd2, hd3, hd4, hdash, hd5, hd6⟩ := hdig
        split at h
        · rename_i hm
          simp only [Option.some.injEq, Prod.mk.injEq] at h
          obtain ⟨hyv, hmv⟩ := h
          subst hdash
          have b1 := digit_toNat_bounds y1 hd1
          have b2 := digit_toNat_bounds y2 hd2
          have b3 := digit_toNat_bounds y3 hd3
          have b4 := digit_toNat_bounds y4 hd4
          have hy9999 : y ≤ 9999 := by omega
          have hm12 : 1 ≤ m ∧ m ≤ 12 := by omega
          have e1 := splitOnChar_cons_ne '-' m2 [] (digit_ne m2 hd6 '-' (by decide))
            [] [] rfl
          have e2 := splitOnChar_cons_ne '-' m1 [m2] (digit_ne m1 hd5 '-' (by decide))
            [m2] [] e1
          have e3 := splitOnChar_cons_eq '-' [m1, m2] [m1, m2] [] e2
          have e4 := splitOnChar_cons_ne '-' y4 ['-', m1, m2]
            (digit_ne y4 hd4 '-' (by decide)) [] [[m1, m2]] e3
          have e5 := splitOnChar_cons_ne '-' y3 [y4, '-', m1, m2]
            (digit_ne y3 hd3 '-' (by decide)) [y4] [[m1, m2]] e4
          have e6 := splitOnChar_cons_ne '-' y2 [y3, y4, '-', m1, m2]
            (digit_ne y2 hd2 '-' (by decide)) [y3, y4] [[m1, m2]] e5
          have e7 := splitOnChar_cons_ne '-' y1 [y2, y3, y4, '-', m1, m2]
            (digit_ne y1 hd1 '-' (by decide)) [y2, y3, y4] [[m1, m2]] e6
          have hfold1 : pyInt [y1, y2, y3, y4] = some ((y : Nat) : Int) := by
            rw [pyInt_all_digits y1 [y2, y3, y4] (by
              intro d hd
              simp only [List.mem_cons, List.not_mem_nil, or_false] at hd
              rcases hd with rfl | rfl | rfl | rfl <;> assumption)]
            have : List.foldl (fun n d => n * 10 + (d.toNat - 48)) 0 [y1, y2, y3, y4] =
                y := by
              simp only [List.foldl_cons, List.foldl_nil, Nat.zero_mul, Nat.zero_add]
              exact hyv
            rw [this]
          have hfold2 : pyInt [m1, m2] = some ((m : Nat) : Int) := by
            rw [pyInt_all_digits m1 [m2] (by
              intro d hd
              simp only [List.mem_cons, List.not_mem_nil, or_false] at hd
              rcases hd with rfl | rfl <;> assumption)]
            have : List.foldl (fun n d => n * 10 + (d.toNat - 48)) 0 [m1, m2] = m := by
              simp only [List.foldl_cons, List.foldl_nil, Nat.zero_mul, Nat.zero_add]
              exact hmv
            rw [this]
          have hpp := parse_period_two_parts s [y1, y2, y3, y4] [m1, m2] (heq ▸ e7)
          rw [hfold1, hfold2] at hpp
          have hpp2 : parse_period s =
              (if 1 ≤ ((y : Nat) : Int) ∧ ((y : Nat) : Int) ≤ 9999 ∧
                  1 ≤ ((m : Nat) : Int) ∧ ((m : Nat) : Int) ≤ 12 then
                if ((m : Nat) : Int) = 12 then
                  if ((y : Nat) : Int) + 1 ≤ 9999 then
                    Except.ok (((y : Nat) : Int), ((m : Nat) : Int),
                      monthStartTs ((y : Nat) : Int) ((m : Nat) : Int),
                      monthStartTs (((y : Nat) : Int) + 1) 1)
                  else
                    Except.error PyExc.valueError
                else
                  Except.ok (((y : Nat) : Int), ((m : Nat) : Int),
                    monthStartTs ((y : Nat) : Int) ((m : Nat) : Int),
                    monthStartTs ((y : Nat) : Int) (((m : Nat) : Int) + 1))
              else
                Except.error (invalidInput ("invalid periodYm: " ++ s))) := hpp
          rw [if_pos (by
            refine ⟨by exact_mod_cast hy1, by exact_mod_cast hy9999,
              by exact_mod_cast hm12.1, by exact_mod_cast hm12.2⟩ :
            (1 ≤ ((y : Nat) : Int) ∧ ((y : Nat) : Int) ≤ 9999 ∧
              1 ≤ ((m : Nat) : Int) ∧ ((m : Nat) : Int) ≤ 12))] at hpp2
          by_cases hmeq : ((m : Nat) : Int) = 12
          · rw [if_pos hmeq] at hpp2
            have hym : ¬y = 9999 := by
              intro hc
              exact hex ⟨hc, by exact_mod_cast hmeq⟩
            rw [if_pos (by
              have : ((y : Nat) : Int) ≤ 9998 := by exact_mod_cast (by omega : y ≤ 9998)
              omega)] at hpp2
            exact ⟨_, _, hpp2⟩
          · rw [if_neg hmeq] at hpp2
            exact ⟨_, _, hpp2⟩
        · exact absurd h (by simp)
      · exact absurd h (by simp)
    · exact absurd h (by simp)

/-- Closed instance discharging the hypotheses of `period_key_validation`
(conjunct 2 applied at the canonical string 2024-05). -/
theorem period_key_validation_witness :
    ∃ ts1 ts2, parse_period "2024-05" = .ok ((2024 : Int), (5 : Int), ts1, ts2) :=
  period_key_validation.2.1 "2024-05" 2024 5 rfl (by decide) (by decide)

/-! ## The materialization loop: per-step lemmas -/

/-- A row of the Active-schedule scan needs no posting for this period: it is
out of range, already posted, or allocates nothing. The loop body skips
exactly these rows. -/
lemma dep_step_of_handled (now p : String) (py pm : Int) (ts : String)
    (st : LedgerState) (r : Schedule × Int) (h : HandledRow p py pm st r) :
    dep_step now p py pm ts st r = st := by
  unfold dep_step
  dsimp only
  by_cases h1 : months_between r.1.startYear r.1.startMonth py pm < 0 ∨
      months_between r.1.startYear r.1.startMonth py pm ≥ r.1.totalPeriods
  · rw [if_pos h1]
  · rw [if_neg h1]
    by_cases h2 : (st.postings.any
        (fun q => q.scheduleId = r.1.id ∧ q.periodYm = p)) = true
    · rw [if_pos h2]
    · rw [if_neg h2]
      have h3 : calculate_depreciation_amount r.1.strategy (r.2 - r.1.residual)
          r.1.totalPeriods (months_between r.1.startYear r.1.startMonth py pm) ≤ 0 := by
        rcases h with h | h | h | h
        · exact absurd h h2
        · exact absurd (Or.inl h) h1
        · exact absurd (Or.inr h) h1
        · exact h
      rw [if_pos h3]

/-- When a row is due, the loop body inserts the transaction and the posting,
and completes the schedule exactly when this is its final period. -/
lemma dep_step_insert (now p : String) (py pm : Int) (ts : String)
    (st : LedgerState) (r : Schedule × Int)
    (h1 : ¬(months_between r.1.startYear r.1.startMonth py pm < 0 ∨
      months_between r.1.startYear r.1.startMonth py pm ≥ r.1.totalPeriods))
    (h2 : ¬(st.postings.any (fun q => q.scheduleId = r.1.id ∧ q.periodYm = p)) = true)
    (h3 : ¬calculate_depreciation_amount r.1.strategy (r.2 - r.1.residual)
      r.1.totalPeriods (months_between r.1.startYear r.1.startMonth py pm) ≤ 0) :
    dep_step now p py pm ts st r =
      (if months_between r.1.startYear r.1.startMonth py pm = r.1.totalPeriods - 1 then
        { st with
          txns := st.txns ++
            [{ id := st.nextId,
               amount := calculate_depreciation_amount r.1.strategy (r.2 - r.1.residual)
                 r.1.totalPeriods (months_between r.1.startYear r.1.startMonth py pm),
               fromAccount := none, toAccount := none, payee := none, category := none,
               accrualType := AccrualType.Depreciation, isAssetPurchase := false,
               note := some ("Depreciation for " ++ p), occurredAt := ts, createdAt := now }]
          postings := st.postings ++
            [{ id := st.nextId + 1, scheduleId := r.1.id, periodYm := p,
               amount := calculate_depreciation_amount r.1.strategy (r.2 - r.1.residual)
                 r.1.totalPeriods (months_between r.1.startYear r.1.startMonth py pm),
               transactionId := st.nextId, generatedAt := now }]
          nextId := st.nextId + 2
          schedules := st.schedules.map (fun t =>
            if t.id = r.1.id then { t with status := ScheduleStatus.Completed } else t) }
      else
        { st with
          txns := st.txns ++
            [{ id := st.nextId,
               amount := calculate_depreciation_amount r.1.strategy (r.2 - r.1.residual)
                 r.1.totalPeriods (months_between r.1.startYear r.1.startMonth py pm),
               fromAccount := none, toAccount := none, payee := none, category := none,
               accrualType := AccrualType.Depreciation, isAssetPurchase := false,
               note := some ("Depreciation for " ++ p), occurredAt := ts, createdAt := now }]
          postings := st.postings ++
            [{ id := st.nextId + 1, scheduleId := r.1.id, periodYm := p,
               amount := calculate_depreciation_amount r.1.strategy (r.2 - r.1.residual)
                 r.1.totalPeriods (months_between r.1.startYear r.1.startMonth py pm),
               transactionId := st.nextId, generatedAt := now }]
          nextId := st.nextId + 2 }) := by
  unfold dep_step
  dsimp only
  rw [if_neg h1, if_neg h2, if_neg h3]

/-- Every field-level effect of one loop iteration, as a disjunction: either
the row is skipped, or exactly one transaction and one posting for this
(schedule, period) are appended and schedules are at most completed. -/
lemma dep_step_shape (now p : String) (py pm : Int) (ts : String)
    (st : LedgerState) (r : Schedule × Int) :
    dep_step now p py pm ts st r = st ∨
    ((st.postings.any (fun q => q.scheduleId = r.1.id ∧ q.periodYm = p)) = false ∧
      (dep_step now p py pm ts st r).postings = st.postings ++
        [{ id := st.nextId + 1, scheduleId := r.1.id, periodYm := p,
           amount := calculate_depreciation_amount r.1.strategy (r.2 - r.1.residual)
             r.1.totalPeriods (months_between r.1.startYear r.1.startMonth py pm),
           transactionId := st.nextId, generatedAt := now }] ∧
      (dep_step now p py pm ts st r).txns = st.txns ++
        [{ id := st.nextId,
           amount := calculate_depreciation_amount r.1.strategy (r.2 - r.1.residual)
             r.1.totalPeriods (months_between r.1.startYear r.1.startMonth py pm),
           fromAccount := none, toAccount := none, payee := none, category := none,
           accrualType := AccrualType.Depreciation, isAssetPurchase := false,
           note := some ("Depreciation for " ++ p), occurredAt := ts, createdAt := now }] ∧
      ((dep_step now p py pm ts st r).schedules = st.schedules ∨
        (dep_step now p py pm ts st r).schedules = st.schedules.map (fun t =>
          if t.id = r.1.id then { t with status := ScheduleStatus.Completed } else t)) ∧
      (dep_step now p py pm ts st r).nextId = st.nextId + 2) := by
  by_cases h1 : months_between r.1.startYear r.1.startMonth py pm < 0 ∨
      months_between r.1.startYear r.1.startMonth py pm ≥ r.1.totalPeriods
  · exact Or.inl (dep_step_of_handled now p py pm ts st r
      (Or.inr (h1.elim Or.inl (fun h => Or.inr (Or.inl h)))))
  · by_cases h2 : (st.postings.any
        (fun q => q.scheduleId = r.1.id ∧ q.periodYm = p)) = true
    · exact Or.inl (dep_step_of_handled now p py pm ts st r (Or.inl h2))
    · by_cases h3 : calculate_depreciation_amount r.1.strategy (r.2 - r.1.residual)
          r.1.totalPeriods (months_between r.1.startYear r.1.startMonth py pm) ≤ 0
      · exact Or.inl (dep_step_of_handled now p py pm ts st r
          (Or.inr (Or.inr (Or.inr h3))))
      · have hins := dep_step_insert now p py pm ts st r h1 h2 h3
        refine Or.inr ⟨by simpa using h2, ?_, ?_, ?_, ?_⟩
        · rw [hins]
          split <;> rfl
        · rw [hins]
          split <;> rfl
        · rw [hins]
          split
          · exact Or.inr rfl
          · exact Or.inl rfl
        · rw [hins]
          split <;> rfl

lemma any_append_true (l tl : List Posting) (pr : Posting → Bool) (h : l.any pr = true) :
    (l ++ tl).any pr = true := by
  rw [List.any_append, h]
  rfl

lemma any_false_filter_nil (l : List Posting) (pr : Posting → Bool)
    (h : l.any pr = false) : l.filter pr = [] := by
  rw [List.filter_eq_nil_iff]
  intro a ha hpa
  rw [List.any_eq_false] at h
  exact h a ha hpa

/-- `{t with status := Completed}` is `t` itself when `t` is already
Completed. -/
lemma schedule_complete_self (t : Schedule) (h : t.status = ScheduleStatus.Completed) :
    { t with status := ScheduleStatus.Completed } = t := by
  cases t
  simp only at h
  rw [h]

lemma handled_step_mono (now p : String) (py pm : Int) (ts : String)
    (st : LedgerState) (r r' : Schedule × Int) (h : HandledRow p py pm st r) :
    HandledRow p py pm (dep_step now p py pm ts st r') r := by
  rcases dep_step_shape now p py pm ts st r' with heq | ⟨_, hpost, _, _, _⟩
  · rw [heq]
    exact h
  · rcases h with h | h | h | h
    · exact Or.inl (by rw [hpost]; exact any_append_true _ _ _ h)
    · exact Or.inr (Or.inl h)
    · exact Or.inr (Or.inr (Or.inl h))
    · exact Or.inr (Or.inr (Or.inr h))

lemma dep_step_establishes (now p : String) (py pm : Int) (ts : String)
    (st : LedgerState) (r : Schedule × Int) :
    HandledRow p py pm (dep_step now p py pm ts st r) r := by
  by_cases h1 : months_between r.1.startYear r.1.startMonth py pm < 0 ∨
      months_between r.1.startYear r.1.startMonth py pm ≥ r.1.totalPeriods
  · rw [dep_step_of_handled now p py pm ts st r
      (Or.inr (h1.elim Or.inl (fun h => Or.inr (Or.inl h))))]
    exact Or.inr (h1.elim Or.inl (fun h => Or.inr (Or.inl h)))
  · by_cases h2 : (st.postings.any
        (fun q => q.scheduleId = r.1.id ∧ q.periodYm = p)) = true
    · rw [dep_step_of_handled now p py pm ts st r (Or.inl h2)]
      exact Or.inl h2
    · by_cases h3 : calculate_depreciation_amount r.1.strategy (r.2 - r.1.residual)
          r.1.totalPeriods (months_between r.1.startYear r.1.startMonth py pm) ≤ 0
      · rw [dep_step_of_handled now p py pm ts st r (Or.inr (Or.inr (Or.inr h3)))]
        exact Or.inr (Or.inr (Or.inr h3))
      · rw [dep_step_insert now p py pm ts st r h1 h2 h3]
        refine Or.inl ?_
        split <;> (show (st.postings ++ _).any _ = true) <;>
          (rw [List.any_append]; simp)

lemma foldl_handled_mono (now p : String) (py pm : Int) (ts : String)
    (rows : List (Schedule × Int)) (st : LedgerState) (r : Schedule × Int)
    (h : HandledRow p py pm st r) :
    HandledRow p py pm (rows.foldl (dep_step now p py pm ts) st) r := by
  induction rows generalizing st with
  | nil => exact h
  | cons r0 rest ih =>
    rw [List.foldl_cons]
    exact ih _ (handled_step_mono now p py pm ts st r r0 h)

lemma foldl_handled_all (now p : String) (py pm : Int) (ts : String)
    (rows : List (Schedule × Int)) (st : LedgerState) :
    ∀ r ∈ rows, HandledRow p py pm (rows.foldl (dep_step now p py pm ts) st) r := by
  induction rows generalizing st with
  | nil => intro r hr; cases hr
  | cons r0 rest ih =>
    intro r hr
    rw [List.foldl_cons]
    rcases List.mem_cons.mp hr with rfl | hr'
    · exact foldl_handled_mono now p py pm ts rest _ r
        (dep_step_establishes now p py pm ts st r)
    · exact ih _ r hr'

lemma foldl_skip (now p : String) (py pm : Int) (ts : String)
    (rows : List (Schedule × Int)) (st : LedgerState)
    (h : ∀ r ∈ rows, HandledRow p py pm st r) :
    rows.foldl (dep_step now p py pm ts) st = st := by
  induction rows with
  | nil => rfl
  | cons r0 rest ih =>
    rw [List.foldl_cons, dep_step_of_handled now p py pm ts st r0
      (h r0 (List.mem_cons_self r0 rest))]
    exact ih (fun r hr => h r (List.mem_cons_of_mem r0 hr))

lemma foldl_postings_ext (now p : String) (py pm : Int) (ts : String)
    (rows : List (Schedule × Int)) (st : LedgerState) :
    ∃ tl, (rows.foldl (dep_step now p py pm ts) st).postings = st.postings ++ tl ∧
      ∀ q ∈ tl, (∃ r ∈ rows, q.scheduleId = r.1.id) ∧ q.periodYm = p := by
  induction rows generalizing st with
  | nil => exact ⟨[], by simp, by simp⟩
  | cons r0 rest ih =>
    rw [List.foldl_cons]
    rcases dep_step_shape now p py pm ts st r0 with heq | ⟨_, hpost, _, _, _⟩
    · rw [heq]
      obtain ⟨tl, htl, hmem⟩ := ih st
      exact ⟨tl, htl, fun q hq =>
        ⟨(hmem q hq).1.imp (fun r hr => ⟨List.mem_cons_of_mem r0 hr.1, hr.2⟩),
         (hmem q hq).2⟩⟩
    · obtain ⟨tl, htl, hmem⟩ := ih (dep_step now p py pm ts st r0)
      rw [hpost] at htl
      refine ⟨
        ({ id := st.nextId + 1, scheduleId := r0.1.id, periodYm := p,
           amount := calculate_depreciation_amount r0.1.strategy (r0.2 - r0.1.residual)
             r0.1.totalPeriods (months_between r0.1.startYear r0.1.startMonth py pm),
           transactionId := st.nextId, generatedAt := now } : Posting) :: tl, ?_, ?_⟩
      · rw [htl]
        simp
      · intro q hq
        rcases List.mem_cons.mp hq with rfl | hqtl
        · exact ⟨⟨r0, List.mem_cons_self r0 rest, rfl⟩, rfl⟩
        · exact ⟨(hmem q hqtl).1.imp (fun r hr => ⟨List.mem_cons_of_mem r0 hr.1, hr.2⟩),
            (hmem q hqtl).2⟩

lemma foldl_txns_ext (now p : String) (py pm : Int) (ts : String)
    (rows : List (Schedule × Int)) (st : LedgerState) :
    ∃ tl, (rows.foldl (dep_step now p py pm ts) st).txns = st.txns ++ tl := by
  induction rows generalizing st with
  | nil => exact ⟨[], by simp⟩
  | cons r0 rest ih =>
    rw [List.foldl_cons]
    rcases dep_step_shape now p py pm ts st r0 with heq | ⟨_, _, htx, _, _⟩
    · rw [heq]
      exact ih st
    · obtain ⟨tl, htl⟩ := ih (dep_step now p py pm ts st r0)
      rw [htx] at htl
      refine ⟨
        ({ id := st.nextId,
           amount := calculate_depreciation_amount r0.1.strategy (r0.2 - r0.1.residual)
             r0.1.totalPeriods (months_between r0.1.startYear r0.1.startMonth py pm),
           fromAccount := none, toAccount := none, payee := none, category := none,
           accrualType := AccrualType.Depreciation, isAssetPurchase := false,
           note := some ("Depreciation for " ++ p), occurredAt := ts,
           createdAt := now } : Txn) :: tl, ?_⟩
      rw [htl]
      simp

lemma foldl_nextId_le (now p : String) (py pm : Int) (ts : String)
    (rows : List (Schedule × Int)) (st : LedgerState) :
    st.nextId ≤ (rows.foldl (dep_step now p py pm ts) st).nextId := by
  induction rows generalizing st with
  | nil => exact Nat.le_refl _
  | cons r0 rest ih =>
    rw [List.foldl_cons]
    refine Nat.le_trans ?_ (ih (dep_step now p py pm ts st r0))
    rcases dep_step_shape now p py pm ts st r0 with heq | ⟨_, _, _, _, hnext⟩
    · rw [heq]
    · rw [hnext]
      omega

lemma dep_step_postings_unique (now p : String) (py pm : Int) (ts : String)
    (st : LedgerState) (r : Schedule × Int) (h : PostingsUnique st) :
    PostingsUnique (dep_step now p py pm ts st r) := by
  rcases dep_step_shape now p py pm ts st r with heq | ⟨hany, hpost, _, _, _⟩
  · rw [heq]
    exact h
  · intro sid q
    unfold postingsFor
    rw [hpost, List.filter_append]
    by_cases hsq : sid = r.1.id ∧ q = p
    · obtain ⟨h1, h2⟩ := hsq
      rw [h1, h2, any_false_filter_nil _ _ hany, List.nil_append]
      exact le_trans (List.length_filter_le _ _) (by simp)
    · have h1 : (List.filter (fun x => x.scheduleId = sid ∧ x.periodYm = q)
          [({ id := st.nextId + 1, scheduleId := r.1.id, periodYm := p,
              amount := calculate_depreciation_amount r.1.strategy (r.2 - r.1.residual)
                r.1.totalPeriods (months_between r.1.startYear r.1.startMonth py pm),
              transactionId := st.nextId, generatedAt := now } : Posting)]) = [] := by
        rw [List.filter_eq_nil_iff]
        intro a ha hpa
        rw [List.mem_singleton] at ha
        subst ha
        simp only [decide_eq_true_eq] at hpa
        exact hsq ⟨hpa.1.symm, hpa.2.symm⟩
      rw [h1, List.append_nil]
      exact h sid q

lemma foldl_postings_unique (now p : String) (py pm : Int) (ts : String)
    (rows : List (Schedule × Int)) (st : LedgerState) (h : PostingsUnique st) :
    PostingsUnique (rows.foldl (dep_step now p py pm ts) st) := by
  induction rows generalizing st with
  | nil => exact h
  | cons r0 rest ih =>
    rw [List.foldl_cons]
    exact ih _ (dep_step_postings_unique now p py pm ts st r0 h)

lemma foldl_sched_active_mem (now p : String) (py pm : Int) (ts : String)
    (rows : List (Schedule × Int)) (st : LedgerState) (x : Schedule)
    (hx : x ∈ (rows.foldl (dep_step now p py pm ts) st).schedules)
    (hact : x.status = ScheduleStatus.Active) : x ∈ st.schedules := by
  induction rows generalizing st with
  | nil => exact hx
  | cons r0 rest ih =>
    rw [List.foldl_cons] at hx
    have hx' := ih _ hx
    rcases dep_step_shape now p py pm ts st r0 with heq | ⟨_, _, _, hsched, _⟩
    · rw [heq] at hx'
      exact hx'
    · rcases hsched with hs | hs
      · rw [hs] at hx'
        exact hx'
      · rw [hs] at hx'
        obtain ⟨y, hy, hxy⟩ := List.mem_map.mp hx'
        by_cases hyid : y.id = r0.1.id
        · rw [if_pos hyid] at hxy
          rw [← hxy] at hact
          exact absurd hact (by simp)
        · rw [if_neg hyid] at hxy
          rw [← hxy]
          exact hy

lemma foldl_sched_completed_mem (now p : String) (py pm : Int) (ts : String)
    (rows : List (Schedule × Int)) (st : LedgerState) (x : Schedule)
    (hx : x ∈ st.schedules) (hc : x.status = ScheduleStatus.Completed) :
    x ∈ (rows.foldl (dep_step now p py pm ts) st).schedules := by
  induction rows generalizing st with
  | nil => exact hx
  | cons r0 rest ih =>
    rw [List.foldl_cons]
    refine ih _ ?_
    rcases dep_step_shape now p py pm ts st r0 with heq | ⟨_, _, _, hsched, _⟩
    · rw [heq]
      exact hx
    · rcases hsched with hs | hs
      · rw [hs]
        exact hx
      · rw [hs]
        have hmm : (if x.id = r0.1.id then { x with status := ScheduleStatus.Completed }
            else x) ∈ st.schedules.map (fun t =>
              if t.id = r0.1.id then { t with status := ScheduleStatus.Completed } else t) :=
          List.mem_map_of_mem _ hx
        by_cases hxid : x.id = r0.1.id
        · rw [if_pos hxid, schedule_complete_self x hc] at hmm
          exact hmm
        · rw [if_neg hxid] at hmm
          exact hmm

lemma mem_active_rows_elim {s : LedgerState} {r : Schedule × Int}
    (h : r ∈ active_rows s) :
    r.1 ∈ s.schedules ∧ r.1.status = ScheduleStatus.Active ∧
      ∃ t, s.txns.find? (fun x => x.id = r.1.sourceTransaction) = some t ∧
        r.2 = t.amount := by
  unfold active_rows at h
  obtain ⟨sch, hmem, hg⟩ := List.mem_filterMap.mp h
  by_cases hst : sch.status = ScheduleStatus.Active
  · rw [if_pos hst] at hg
    obtain ⟨t, hft, hrt⟩ := Option.map_eq_some'.mp hg
    obtain ⟨r1, r2⟩ := r
    obtain ⟨hr1, hr2⟩ : sch = r1 ∧ t.amount = r2 := by
      simpa using hrt
    subst hr1
    subst hr2
    exact ⟨hmem, hst, t, hft, rfl⟩
  · rw [if_neg hst] at hg
    exact absurd hg (by simp)

lemma mem_active_rows_intro {s : LedgerState} {sch : Schedule} {t : Txn}
    (hmem : sch ∈ s.schedules) (hact : sch.status = ScheduleStatus.Active)
    (hft : s.txns.find? (fun x => x.id = sch.sourceTransaction) = some t) :
    (sch, t.amount) ∈ active_rows s := by
  unfold active_rows
  refine List.mem_filterMap.mpr ⟨sch, hmem, ?_⟩
  rw [if_pos hact, hft]
  rfl

lemma ensure_ok_elim {now : String} {s : LedgerState} {p : String} {s₁ : LedgerState}
    (h : ensure_depreciation_for_period now s p = .ok s₁) :
    ∃ py pm ts nx, parse_period p = .ok (py, pm, ts, nx) ∧
      s₁ = (active_rows s).foldl (dep_step now p py pm ts) s := by
  unfold ensure_depreciation_for_period at h
  cases hp : parse_period p with
  | error e =>
    rw [hp] at h
    exact absurd h (by simp)
  | ok v =>
    obtain ⟨py, pm, ts, nx⟩ := v
    rw [hp] at h
    simp only [Except.ok.injEq] at h
    exact ⟨py, pm, ts, nx, rfl, h.symm⟩

lemma sched_mem_eq_of_nodup_ids (l : List Schedule)
    (hnd : (l.map (fun t => t.id)).Nodup) (a b : Schedule) (ha : a ∈ l) (hb : b ∈ l)
    (hid : a.id = b.id) : a = b := by
  induction l with
  | nil => cases ha
  | cons c t ih =>
    rw [List.map_cons, List.nodup_cons] at hnd
    rcases List.mem_cons.mp ha with rfl | ha' <;>
      rcases List.mem_cons.mp hb with rfl | hb'
    · rfl
    · exact absurd (hid ▸ List.mem_map_of_mem (fun x => x.id) hb') hnd.1
    · exact absurd (hid ▸ List.mem_map_of_mem (fun x => x.id) ha') hnd.1
    · exact ih hnd.2 ha' hb'

lemma filterMap_map_sublist {α β γ : Type} (g : α → Option β) (hf : β → γ) (hg : α → γ)
    (hc : ∀ x y, g x = some y → hf y = hg x) (l : List α) :
    ((l.filterMap g).map hf).Sublist (l.map hg) := by
  induction l with
  | nil => simp
  | cons x t ih =>
    rw [List.filterMap_cons]
    cases hgx : g x with
    | none =>
      rw [List.map_cons]
      exact ih.cons _
    | some y =>
      rw [List.map_cons, List.map_cons, hc x y hgx]
      exact ih.cons₂ _

/-- The ids of the Active-schedule scan, in order, form a sublist of the
schedule table's id column. -/
lemma active_rows_ids_sublist (s : LedgerState) :
    ((active_rows s).map (fun r => r.1.id)).Sublist
      (s.schedules.map (fun t => t.id)) := by
  unfold active_rows
  refine filterMap_map_sublist _ _ _ ?_ s.schedules
  intro x y hxy
  by_cases hst : x.status = ScheduleStatus.Active
  · rw [if_pos hst] at hxy
    obtain ⟨t, _, hrt⟩ := Option.map_eq_some'.mp hxy
    rw [← hrt]
  · rw [if_neg hst] at hxy
    exact absurd hxy (by simp)

lemma foldl_sched_mem_of_ne (now p : String) (py pm : Int) (ts : String)
    (rows : List (Schedule × Int)) (st : LedgerState) (sch : Schedule)
    (hne : ∀ r ∈ rows, r.1.id ≠ sch.id) (hmem : sch ∈ st.schedules) :
    sch ∈ (rows.foldl (dep_step now p py pm ts) st).schedules := by
  induction rows generalizing st with
  | nil => exact hmem
  | cons r0 rest ih =>
    rw [List.foldl_cons]
    refine ih _ (fun r hr => hne r (List.mem_cons_of_mem r0 hr)) ?_
    rcases dep_step_shape now p py pm ts st r0 with heq | ⟨_, _, _, hsched, _⟩
    · rw [heq]
      exact hmem
    · rcases hsched with hs | hs
      · rw [hs]
        exact hmem
      · rw [hs]
        have hmm : (if sch.id = r0.1.id then { sch with status := ScheduleStatus.Completed }
            else sch) ∈ st.schedules.map (fun t =>
              if t.id = r0.1.id then { t with status := ScheduleStatus.Completed } else t) :=
          List.mem_map_of_mem _ hmem
        rw [if_neg (fun hcon => hne r0 (List.mem_cons_self r0 rest) hcon.symm)] at hmm
        exact hmm

lemma calc_pos_in_range {strategy : AmortizationStrategy} {d n i : Int}
    (h : 0 < calculate_depreciation_amount strategy d n i) :
    ¬(i < 0 ∨ i ≥ n) := by
  intro hg
  unfold calculate_depreciation_amount at h
  rw [if_pos (Or.inr (Or.inr (hg.elim (fun h => Or.inl h) (fun h => Or.inr h))))] at h
  omega

/-! ## C2: idempotence of lazy materialization -/

lemma find?_append_some {α : Type} (l tl : List α) (pr : α → Bool) (a : α)
    (h : l.find? pr = some a) : (l ++ tl).find? pr = some a := by
  rw [List.find?_append, h]
  rfl

lemma bound_of_ids_eq {s s' : LedgerState}
    (h : s'.accounts.map (fun a => a.id) = s.accounts.map (fun a => a.id))
    (hb : AccIdsBound s) (hn : s.nextId ≤ s'.nextId) : AccIdsBound s' := by
  intro a ha
  have hmm : a.id ∈ s'.accounts.map (fun a => a.id) := List.mem_map_of_mem _ ha
  rw [h] at hmm
  obtain ⟨b, hbmem, hbid⟩ := List.mem_map.mp hmm
  have := hb b hbmem
  omega

/-- The UNIQUE(schedule_id, period_ym) guarantee holds in every reachable
state: `ensure_depreciation_for_period` checks for an existing posting before
inserting, and no other operation writes postings. -/
lemma reachable_postings_unique {s : LedgerState} (h : Reachable s) :
    PostingsUnique s := by
  induction h with
  | empty =>
    intro sid q
    simp [postingsFor, emptyState]
  | createAccount now inp hR heq ih =>
    obtain ⟨hs', _, _⟩ := create_account_ok _ _ _ _ _ heq
    rw [hs']
    exact ih
  | createTransaction now inp hR heq ih =>
    obtain ⟨_, _, _, hpost, _⟩ := create_transaction_ok _ _ _ _ _ heq
    intro sid q
    unfold postingsFor
    rw [hpost]
    exact ih sid q
  | createAssetPurchase now inp hR heq ih =>
    obtain ⟨_, _, _, _, hpost, _⟩ := create_asset_purchase_ok _ _ _ _ _ _ heq
    intro sid q
    unfold postingsFor
    rw [hpost]
    exact ih sid q
  | reconcile now inp hR heq ih =>
    obtain ⟨row, _, _, _, _, hpost, _⟩ := reconcile_account_ok _ _ _ _ _ _ heq
    intro sid q
    unfold postingsFor
    rw [hpost]
    exact ih sid q
  | ensureDepreciation now pym hR heq ih =>
    obtain ⟨py, pm, ts, nx, hp, hs'⟩ := ensure_ok_elim heq
    rw [hs']
    exact foldl_postings_unique now pym py pm ts _ _ ih

/-- C2: (idempotence) a second run of `ensure_depreciation_for_period` for the
same period over a sourced store is a no-op; (count) a due Active schedule has
exactly one posting for the period after the run; (invariant) every reachable
state has at most one posting per (schedule, periodYm) pair. -/
theorem ensure_depreciation_idempotent :
    (∀ (now now2 : String) (s s₁ : LedgerState) (p : String),
      SchedulesSourced s →
      ensure_depreciation_for_period now s p = .ok s₁ →
      ensure_depreciation_for_period now2 s₁ p = .ok s₁) ∧
    (∀ (now : String) (s s₁ : LedgerState) (p : String) (py pm : Int) (ts nx : String)
        (sch : Schedule) (t : Txn),
      parse_period p = .ok (py, pm, ts, nx) →
      ensure_depreciation_for_period now s p = .ok s₁ →
      PostingsUnique s →
      sch ∈ s.schedules → sch.status = ScheduleStatus.Active →
      s.txns.find? (fun x => x.id = sch.sourceTransaction) = some t →
      0 ≤ months_between sch.startYear sch.startMonth py pm →
      months_between sch.startYear sch.startMonth py pm < sch.totalPeriods →
      0 < calculate_depreciation_amount sch.strategy (t.amount - sch.residual)
        sch.totalPeriods (months_between sch.startYear sch.startMonth py pm) →
      (postingsFor s₁ sch.id p).length = 1) ∧
    (∀ s, Reachable s → PostingsUnique s) := by
  refine ⟨?_, ?_, fun s h => reachable_postings_unique h⟩
  · intro now now2 s s₁ p hsrc h
    obtain ⟨py, pm, ts, nx, hp, hs₁⟩ := ensure_ok_elim h
    unfold ensure_depreciation_for_period
    rw [hp]
    show Except.ok ((active_rows s₁).foldl (dep_step now2 p py pm ts) s₁) = Except.ok s₁
    congr 1
    apply foldl_skip
    intro r hr
    obtain ⟨hmem1, hact1, t, hft1, hamt⟩ := mem_active_rows_elim hr
    have hmem0 : r.1 ∈ s.schedules := by
      rw [hs₁] at hmem1
      exact foldl_sched_active_mem now p py pm ts (active_rows s) s r.1 hmem1 hact1
    obtain ⟨t0, ht0mem, ht0id⟩ := hsrc r.1 hmem0
    obtain ⟨t1, hft0⟩ : ∃ t1,
        s.txns.find? (fun x => x.id = r.1.sourceTransaction) = some t1 := by
      refine Option.isSome_iff_exists.mp ?_
      rw [List.find?_isSome]
      exact ⟨t0, ht0mem, by simp [ht0id]⟩
    have hstab : s₁.txns.find? (fun x => x.id = r.1.sourceTransaction) = some t1 := by
      obtain ⟨tl, htl⟩ := foldl_txns_ext now p py pm ts (active_rows s) s
      rw [hs₁, htl]
      exact find?_append_some _ _ _ _ hft0
    have ht1 : t = t1 := by
      rw [hft1] at hstab
      exact Option.some.inj hstab
    have hrow0 : (r.1, t1.amount) ∈ active_rows s :=
      mem_active_rows_intro hmem0 hact1 hft0
    have hh : HandledRow p py pm s₁ (r.1, t1.amount) := by
      rw [hs₁]
      exact foldl_handled_all now p py pm ts (active_rows s) s _ hrow0
    have hre : (r.1, t1.amount) = r := by
      have hr2 : r.2 = t1.amount := by rw [hamt, ht1]
      rw [← hr2]
    exact hre ▸ hh
  · intro now s s₁ p py pm ts nx sch t hp h huniq hmem hact hft h0le hlt hpos
    obtain ⟨py', pm', ts', nx', hp', hs₁⟩ := ensure_ok_elim h
    rw [hp] at hp'
    simp only [Except.ok.injEq, Prod.mk.injEq] at hp'
    obtain ⟨rfl, rfl, rfl, rfl⟩ := hp'
    have hrow : (sch, t.amount) ∈ active_rows s := mem_active_rows_intro hmem hact hft
    have hh : HandledRow p py pm s₁ (sch, t.amount) := by
      rw [hs₁]
      exact foldl_handled_all now p py pm ts (active_rows s) s _ hrow
    unfold HandledRow at hh
    dsimp only at hh
    have huniq1 : PostingsUnique s₁ := by
      rw [hs₁]
      exact foldl_postings_unique now p py pm ts _ _ huniq
    have hub := huniq1 sch.id p
    rcases hh with hany | hcon | hcon | hcon
    · obtain ⟨q, hq, hpq⟩ := List.any_eq_true.mp hany
      simp only [decide_eq_true_eq] at hpq
      have hqmem : q ∈ postingsFor s₁ sch.id p := by
        unfold postingsFor
        refine List.mem_filter.mpr ⟨hq, ?_⟩
        simp [hpq.1, hpq.2]
      have hlb := List.length_pos_of_mem hqmem
      omega
    · omega
    · omega
    · omega

/-- Closed instance discharging the hypotheses of
`ensure_depreciation_idempotent`: the three conjuncts applied to the concrete
asset-purchase fixture and the empty ledger. -/
theorem ensure_depreciation_idempotent_witness :
    ensure_depreciation_for_period "t6" ensuredState "2024-01" = .ok ensuredState ∧
    (postingsFor ensuredState 3 "2024-01").length = 1 ∧
    PostingsUnique emptyState :=
  ⟨ensure_depreciation_idempotent.1 "t5" "t6" purchasedState ensuredState "2024-01"
      (by unfold SchedulesSourced; decide) (by rfl),
   ensure_depreciation_idempotent.2.1 "t5" purchasedState ensuredState "2024-01"
      2024 1 "2024-01-01T00:00:00Z" "2024-02-01T00:00:00Z"
      ⟨3, 1, AmortizationStrategy.Linear, 1, 0, 2024, 1, 15, 2,
       ScheduleStatus.Active, "t2"⟩
      ⟨2, 600, some 0, some 1, none, none, AccrualType.Flow, true, none, "t2", "t2"⟩
      (by rfl) (by rfl)
      (by intro sid q; simp [postingsFor, purchasedState])
      (by decide) rfl (by rfl) (by decide) (by decide) (by decide),
   ensure_depreciation_idempotent.2.2 emptyState Reachable.empty⟩

/-! ## C6: the Liability invariant on reachable states -/

/-- The PRIMARY KEY (distinct account ids), id-freshness (ids below the
fresh-id counter) and Liability-balance invariants, carried through every core
operation. -/
lemma reachable_invariants {s : LedgerState} (h : Reachable s) :
    AccIdsNodup s ∧ AccIdsBound s ∧ LiabOK s := by
  induction h with
  | empty =>
    refine ⟨List.nodup_nil, ?_, ?_⟩
    · intro a ha
      exact absurd ha (by simp [emptyState])
    · intro a ha
      exact absurd ha (by simp [emptyState])
  | @createAccount s s' acc now inp hR heq ih =>
    obtain ⟨hnd, hbd, hlb⟩ := ih
    obtain ⟨hs', hacc, hval⟩ := create_account_ok now s inp s' acc heq
    subst hs'
    have haccid : acc.id = s.nextId := by rw [hacc]
    refine ⟨?_, ?_, ?_⟩
    · show ((s.accounts ++ [acc]).map (fun a => a.id)).Nodup
      rw [List.map_append]
      refine List.Nodup.append hnd (by simp) ?_
      intro x hx hx1
      rw [List.map_singleton, List.mem_singleton] at hx1
      obtain ⟨b, hbmem, hbid⟩ := List.mem_map.mp hx
      have hblt := hbd b hbmem
      omega
    · intro a ha
      have ha' : a ∈ s.accounts ++ [acc] := ha
      show a.id < s.nextId + 1
      rcases List.mem_append.mp ha' with h1 | h1
      · have := hbd a h1
        omega
      · rw [List.mem_singleton] at h1
        subst h1
        omega
    · intro a ha hl
      have ha' : a ∈ s.accounts ++ [acc] := ha
      rcases List.mem_append.mp ha' with h1 | h1
      · exact hlb a h1 hl
      · rw [List.mem_singleton] at h1
        subst h1
        have h2 : a.type = inp.accountType := by rw [hacc]
        have h3 : a.balance = inp.initialBalanceCents := by rw [hacc]
        rw [h2] at hl
        rw [h3]
        by_contra hpos
        exact hval ⟨hl, by omega⟩
  | @createTransaction s s' t now inp hR heq ih =>
    obtain ⟨hnd, hbd, hlb⟩ := ih
    obtain ⟨ht, htx, hsch, hpost, hsnap, hnext, hids, hliab⟩ :=
      create_transaction_ok now s inp s' t heq
    refine ⟨?_, bound_of_ids_eq hids hbd (by omega), hliab ⟨hnd, hlb⟩⟩
    show (s'.accounts.map (fun a => a.id)).Nodup
    rw [hids]
    exact hnd
  | @createAssetPurchase s s' t sch now inp hR heq ih =>
    obtain ⟨hnd, hbd, hlb⟩ := ih
    obtain ⟨ht, hsc, htx, hsched, hpost, hsnap, hnext, hids, hliab, _⟩ :=
      create_asset_purchase_ok now s inp s' t sch heq
    refine ⟨?_, bound_of_ids_eq hids hbd (by omega), hliab ⟨hnd, hlb⟩⟩
    show (s'.accounts.map (fun a => a.id)).Nodup
    rw [hids]
    exact hnd
  | @reconcile s s' d adj now inp hR heq ih =>
    obtain ⟨hnd, hbd, hlb⟩ := ih
    obtain ⟨row, hrow, hdeq, hsnap, hsch, hpost, hnid, h0, hne, hbal⟩ :=
      reconcile_account_ok now s inp s' d adj heq
    by_cases hd : d = 0
    · obtain ⟨hadj, htxe, hacce⟩ := h0 hd
      refine ⟨?_, ?_, ?_⟩
      · show (s'.accounts.map (fun a => a.id)).Nodup
        rw [hacce]
        exact hnd
      · refine bound_of_ids_eq ?_ hbd hnid
        rw [hacce]
      · intro a ha hl
        rw [hacce] at ha
        exact hlb a ha hl
    · obtain ⟨hadj, htxe, hids, hliab⟩ := hne hd
      refine ⟨?_, bound_of_ids_eq hids hbd hnid, hliab ⟨hnd, hlb⟩⟩
      show (s'.accounts.map (fun a => a.id)).Nodup
      rw [hids]
      exact hnd
  | @ensureDepreciation s s' now pym hR heq ih =>
    obtain ⟨hnd, hbd, hlb⟩ := ih
    obtain ⟨py, pm, ts, nx, hp, hs'⟩ := ensure_ok_elim heq
    have hacce : s'.accounts = s.accounts := by
      rw [hs']
      exact foldl_dep_step_accounts now pym py pm ts _ _
    have hnle : s.nextId ≤ s'.nextId := by
      rw [hs']
      exact foldl_nextId_le now pym py pm ts _ _
    refine ⟨?_, ?_, ?_⟩
    · show (s'.accounts.map (fun a => a.id)).Nodup
      rw [hacce]
      exact hnd
    · intro a ha
      rw [hacce] at ha
      have := hbd a ha
      omega
    · intro a ha hl
      rw [hacce] at ha
      exact hlb a ha hl

/-- C6: in every state reachable from the empty ledger through the core
operations, every Liability account's balance is ≤ 0. -/
theorem liability_never_positive (s : LedgerState) (h : Reachable s) :
    ∀ a ∈ s.accounts, a.type = AccountType.Liability → a.balance ≤ 0 :=
  (reachable_invariants h).2.2

/-- Closed instance discharging the hypotheses of `liability_never_positive`
on a concrete reachable state holding a Liability account. -/
theorem liability_never_positive_witness : (-100 : Int) ≤ 0 :=
  liability_never_positive loanOnlyState
    (@Reachable.createAccount emptyState loanOnlyState
      ⟨0, "Loan", AccountType.Liability, AssetPurpose.Investment, -100, "t0", "t0"⟩
      "t0"
      { name := "Loan", accountType := AccountType.Liability,
        purpose := AssetPurpose.Investment, initialBalanceCents := -100 }
      Reachable.empty (by rfl))
    ⟨0, "Loan", AccountType.Liability, AssetPurpose.Investment, -100, "t0", "t0"⟩
    (by decide) rfl

/-! ## C9: schedule completion and exclusion -/

/-- C9: (completion) when `ensure_depreciation_for_period` posts an Active
schedule's final period (periodIndex = totalPeriods − 1), the same call stores
the schedule with status Completed; (exclusion) a schedule already Completed
survives the call unchanged and acquires no posting for the period — the scan
only joins Active schedules. -/
theorem schedule_completion :
    (∀ (now : String) (s s₁ : LedgerState) (p : String) (py pm : Int) (ts nx : String)
        (sch : Schedule) (t : Txn),
      parse_period p = .ok (py, pm, ts, nx) →
      ensure_depreciation_for_period now s p = .ok s₁ →
      (s.schedules.map (fun x => x.id)).Nodup →
      sch ∈ s.schedules → sch.status = ScheduleStatus.Active →
      s.txns.find? (fun x => x.id = sch.sourceTransaction) = some t →
      months_between sch.startYear sch.startMonth py pm = sch.totalPeriods - 1 →
      (s.postings.any (fun q => q.scheduleId = sch.id ∧ q.periodYm = p)) = false →
      0 < calculate_depreciation_amount sch.strategy (t.amount - sch.residual)
        sch.totalPeriods (months_between sch.startYear sch.startMonth py pm) →
      { sch with status := ScheduleStatus.Completed } ∈ s₁.schedules) ∧
    (∀ (now : String) (s s₁ : LedgerState) (p : String) (sch : Schedule),
      ensure_depreciation_for_period now s p = .ok s₁ →
      (s.schedules.map (fun x => x.id)).Nodup →
      sch ∈ s.schedules → sch.status = ScheduleStatus.Completed →
      sch ∈ s₁.schedules ∧ postingsFor s₁ sch.id p = postingsFor s sch.id p) := by
  constructor
  · intro now s s₁ p py pm ts nx sch t hp h hnd hmem hact hft hidx hnop hpos
    obtain ⟨py', pm', ts', nx', hp', hs₁⟩ := ensure_ok_elim h
    rw [hp] at hp'
    simp only [Except.ok.injEq, Prod.mk.injEq] at hp'
    obtain ⟨rfl, rfl, rfl, rfl⟩ := hp'
    have hrow : (sch, t.amount) ∈ active_rows s := mem_active_rows_intro hmem hact hft
    obtain ⟨pre, post, hsplit⟩ := List.append_of_mem hrow
    have hrowsnd : ((active_rows s).map (fun r => r.1.id)).Nodup :=
      (active_rows_ids_sublist s).nodup hnd
    rw [hsplit, List.map_append, List.map_cons] at hrowsnd
    obtain ⟨hndA, hndB, hdisj⟩ := List.nodup_append.mp hrowsnd
    obtain ⟨hnotB, _⟩ := List.nodup_cons.mp hndB
    have hprene : ∀ r ∈ pre, r.1.id ≠ sch.id := by
      intro r hr hcon
      have h1 : r.1.id ∈ pre.map (fun r => r.1.id) := List.mem_map_of_mem _ hr
      rw [hcon] at h1
      exact hdisj h1 (by simp)
    have hpostne : ∀ r ∈ post, r.1.id ≠ sch.id := by
      intro r hr hcon
      have h1 : r.1.id ∈ post.map (fun r => r.1.id) := List.mem_map_of_mem _ hr
      rw [hcon] at h1
      exact hnotB h1
    have hfold : s₁ = post.foldl (dep_step now p py pm ts)
        (dep_step now p py pm ts (pre.foldl (dep_step now p py pm ts) s)
          (sch, t.amount)) := by
      rw [hs₁, hsplit, List.foldl_append, List.foldl_cons]
    obtain ⟨tl, htl, htlmem⟩ := foldl_postings_ext now p py pm ts pre s
    have h2'' : (tl.any (fun q => q.scheduleId = sch.id ∧ q.periodYm = p)) = false := by
      rw [List.any_eq_false]
      intro q hq
      obtain ⟨⟨r, hr, hrid⟩, _⟩ := htlmem q hq
      simp only [decide_eq_true_eq, not_and]
      intro hcon
      exact absurd (by rw [← hrid]; exact hcon) (hprene r hr)
    have h2' : ¬((pre.foldl (dep_step now p py pm ts) s).postings.any
        (fun q => q.scheduleId = sch.id ∧ q.periodYm = p)) = true := by
      rw [htl, List.any_append, hnop, Bool.false_or, h2'']
      simp
    have h1' : ¬(months_between sch.startYear sch.startMonth py pm < 0 ∨
        months_between sch.startYear sch.startMonth py pm ≥ sch.totalPeriods) :=
      calc_pos_in_range hpos
    have h3' : ¬calculate_depreciation_amount sch.strategy (t.amount - sch.residual)
        sch.totalPeriods (months_between sch.startYear sch.startMonth py pm) ≤ 0 := by
      omega
    have hins := dep_step_insert now p py pm ts (pre.foldl (dep_step now p py pm ts) s)
      (sch, t.amount) h1' h2' h3'
    have hschPre : sch ∈ (pre.foldl (dep_step now p py pm ts) s).schedules :=
      foldl_sched_mem_of_ne now p py pm ts pre s sch hprene hmem
    have hfin : months_between (sch, t.amount).1.startYear (sch, t.amount).1.startMonth
        py pm = (sch, t.amount).1.totalPeriods - 1 := hidx
    have hcmem : { sch with status := ScheduleStatus.Completed } ∈
        (dep_step now p py pm ts (pre.foldl (dep_step now p py pm ts) s)
          (sch, t.amount)).schedules := by
      rw [hins, if_pos hfin]
      have hmm : (if sch.id = (sch, t.amount).1.id then
          { sch with status := ScheduleStatus.Completed } else sch) ∈
          (pre.foldl (dep_step now p py pm ts) s).schedules.map (fun x =>
            if x.id = (sch, t.amount).1.id then
              { x with status := ScheduleStatus.Completed } else x) :=
        List.mem_map_of_mem _ hschPre
      rw [if_pos (show sch.id = (sch, t.amount).1.id from rfl)] at hmm
      exact hmm
    rw [hfold]
    exact foldl_sched_completed_mem now p py pm ts post _ _ hcmem rfl
  · intro now s s₁ p sch h hnd hmem hc
    obtain ⟨py, pm, ts, nx, hp, hs₁⟩ := ensure_ok_elim h
    refine ⟨?_, ?_⟩
    · rw [hs₁]
      exact foldl_sched_completed_mem now p py pm ts _ _ sch hmem hc
    · obtain ⟨tl, htl, htlmem⟩ := foldl_postings_ext now p py pm ts (active_rows s) s
      have hne : ∀ q ∈ tl, q.scheduleId ≠ sch.id := by
        intro q hq hcon
        obtain ⟨⟨r, hr, hrid⟩, _⟩ := htlmem q hq
        obtain ⟨hrmem, hract, _⟩ := mem_active_rows_elim hr
        have hreq : r.1 = sch := sched_mem_eq_of_nodup_ids s.schedules hnd r.1 sch
          hrmem hmem (by rw [← hrid]; exact hcon)
        rw [hreq, hc] at hract
        exact absurd hract (by simp)
      unfold postingsFor
      rw [hs₁, htl, List.filter_append]
      have hnil : tl.filter (fun r => r.scheduleId = sch.id ∧ r.periodYm = p) = [] := by
        rw [List.filter_eq_nil_iff]
        intro q hq hpq
        simp only [decide_eq_true_eq] at hpq
        exact hne q hq hpq.1
      rw [hnil, List.append_nil]

/-- Closed instance discharging the hypotheses of `schedule_completion`: the
one-period schedule of `purchasedState` is Completed by the call that posts
its final (only) period, and a Completed schedule survives a further call
with no further postings. -/
theorem schedule_completion_witness :
    ((⟨3, 1, AmortizationStrategy.Linear, 1, 0, 2024, 1, 15, 2,
        ScheduleStatus.Completed, "t2"⟩ : Schedule) ∈ ensuredState.schedules) ∧
    ((⟨3, 1, AmortizationStrategy.Linear, 1, 0, 2024, 1, 15, 2,
        ScheduleStatus.Completed, "t2"⟩ : Schedule) ∈ ensuredState.schedules ∧
      postingsFor ensuredState 3 "2024-01" = postingsFor ensuredState 3 "2024-01") :=
  ⟨schedule_completion.1 "t5" purchasedState ensuredState "2024-01" 2024 1
      "2024-01-01T00:00:00Z" "2024-02-01T00:00:00Z"
      ⟨3, 1, AmortizationStrategy.Linear, 1, 0, 2024, 1, 15, 2,
       ScheduleStatus.Active, "t2"⟩
      ⟨2, 600, some 0, some 1, none, none, AccrualType.Flow, true, none, "t2", "t2"⟩
      (by rfl) (by rfl) (by decide) (by decide) rfl (by rfl) (by decide) (by rfl)
      (by decide),
   schedule_completion.2 "t7" ensuredState ensuredState "2024-01"
      ⟨3, 1, AmortizationStrategy.Linear, 1, 0, 2024, 1, 15, 2,
       ScheduleStatus.Completed, "t2"⟩
      (by rfl) (by decide) (by decide) rfl⟩

end Oikonomos
